import Mathlib

/-!
Verification development for the pure-Rust LZO ("lzokay") codec:
a shallow embedding of `src/compress.rs` and `src/decompress.rs`
over `List Nat` byte buffers, followed by theorems about the
round-trip, sizing, terminator, determinism and safety properties.

Bytes are modelled as `Nat` values; every place where the Rust code
truncates to `u8` (an `as u8` cast) carries an explicit `% 256`, and
`u32` wrapping multiplication carries an explicit `% 2^32`.  Mutable
slices become explicit `List Nat` state; fallible operations return
an explicit result type mirroring `Result<_, lzokay::Error>`.
-/

set_option autoImplicit false
set_option maxRecDepth 40000
set_option maxHeartbeats 4000000

namespace Lzokay

/-- Error result codes, mirroring `lzokay::Error` in `src/lib.rs`. -/
inductive Err where
  | lookbehindOverrun
  | outputOverrun
  | inputOverrun
  | error
  | inputNotConsumed
deriving DecidableEq, Repr

/-- Result of a compression routine: mirrors `Result<T, Error>`. -/
inductive CRes (α : Type) where
  | ok (val : α)
  | err (e : Err)
deriving DecidableEq, Repr

/-- Result of a decompression routine.  `stuck` is the semantics of an
execution the Rust code could only reach by panicking (an unchecked
slice index out of bounds) or by failing to terminate; the safety
theorem shows it never occurs. -/
inductive DRes (α : Type) where
  | ok (val : α)
  | err (e : Err)
  | stuck
deriving DecidableEq, Repr

/-! ## Constants (`src/decompress.rs` and `src/compress.rs`) -/

/-- `usize::MAX / 255 - 2` on a 64-bit target (`MAX255_COUNT`). -/
def MAX255_COUNT : Nat := (2 ^ 64 - 1) / 255 - 2

def M3_MARKER : Nat := 0x20
def M4_MARKER : Nat := 0x10

def HASH_SIZE : Nat := 0x4000
def MAX_DIST : Nat := 0xBFFF
def MAX_MATCH_LEN : Nat := 0x800
def BUF_SIZE : Nat := MAX_DIST + MAX_MATCH_LEN
def MAX_MATCH_TABLE : Nat := 34
def BUF_GUARD : Nat := BUF_SIZE + MAX_MATCH_LEN + 1

def M1_MAX_OFFSET : Nat := 0x0400
def M2_MAX_OFFSET : Nat := 0x0800
def M3_MAX_OFFSET : Nat := 0x4000
def M4_BASE_OFFSET : Nat := 0x4000

def M2_MIN_LEN : Nat := 3
def M2_MAX_LEN : Nat := 8
def M3_MAX_LEN : Nat := 33
def M4_MAX_LEN : Nat := 9

/-! ## Byte-buffer primitives shared by the two directions -/

/-- Overwrite `dst[pos .. pos + s.length]` with `s`; callers establish
`pos + s.length ≤ dst.length` before using it (mirrors
`copy_from_slice` into `dst[pos..end]`). -/
def setSlice (dst : List Nat) (pos : Nat) (s : List Nat) : List Nat :=
  dst.take pos ++ s ++ dst.drop (pos + s.length)

/-! ## Decompression (`src/decompress.rs`) -/

/-- `input_byte`: read one byte of `src`, advancing the cursor. -/
def input_byte (src : List Nat) (idx : Nat) : DRes (Nat × Nat) :=
  match src.get? idx with
  | some b => .ok (b, idx + 1)
  | none => .err .inputOverrun

/-- `input_slice`: read `len` bytes of `src` starting at `start`. -/
def input_slice (src : List Nat) (start len : Nat) : DRes (List Nat × Nat) :=
  if start + len ≤ src.length then
    .ok ((src.drop start).take len, start + len)
  else
    .err .inputOverrun

/-- `read_le16`: little-endian 16-bit read. -/
def read_le16 (src : List Nat) (pos : Nat) : DRes (Nat × Nat) :=
  match input_slice src pos 2 with
  | .ok (bytes, pos') => .ok (bytes.getD 0 0 + 256 * bytes.getD 1 0, pos')
  | .err e => .err e
  | .stuck => .stuck

/-- `copy_slice`: copy `len` bytes of `src` at `srcStart` into `dst` at
`dstStart`; returns the advanced cursors and the new buffer. -/
def copy_slice (src : List Nat) (srcStart : Nat) (dst : List Nat)
    (dstStart len : Nat) : DRes (Nat × List Nat × Nat) :=
  if len = 0 then .ok (srcStart, dst, dstStart)
  else if srcStart + len ≤ src.length then
    if dstStart + len ≤ dst.length then
      .ok (srcStart + len, setSlice dst dstStart ((src.drop srcStart).take len),
        dstStart + len)
    else .err .outputOverrun
  else .err .inputOverrun

/-- Count the zero bytes at the head of a list (helper for
`consume_zero_byte_length`). -/
def countZerosAux : List Nat → Nat
  | [] => 0
  | b :: rest => if b = 0 then countZerosAux rest + 1 else 0

/-- Number of consecutive zero bytes of `src` starting at `inp`. -/
def countZeros (src : List Nat) (inp : Nat) : Nat :=
  countZerosAux (src.drop inp)

/-- `consume_zero_byte_length`: consume a run of zero marker bytes,
failing when the run exceeds the overflow guard. -/
def consume_zero_byte_length (src : List Nat) (inp : Nat) : DRes (Nat × Nat) :=
  if countZeros src inp > MAX255_COUNT then .err .error
  else .ok (countZeros src inp, inp + countZeros src inp)

/-- The guarded byte-by-byte lookback copy
(`for i in 0..lblen { dst[outp + i] = dst[lbcur + i] }`): overlapping
ranges propagate forward.  Raw indexing out of bounds is `stuck`. -/
def copyOverlap : Nat → List Nat → Nat → Nat → DRes (List Nat)
  | 0, dst, _, _ => .ok dst
  | n + 1, dst, outp, lbcur =>
    match dst.get? lbcur with
    | some v =>
      if outp < dst.length then copyOverlap n (dst.set outp v) (outp + 1) (lbcur + 1)
      else .stuck
    | none => .stuck

/-- The lookback-run section of the decoder loop: bounds checks followed
by the overlapping copy. -/
def lookback_copy (dst : List Nat) (outp lbcur lblen : Nat) :
    DRes (List Nat × Nat) :=
  if lblen > 0 then
    if outp + lblen > dst.length ∨ lbcur + lblen > dst.length then
      .err .outputOverrun
    else
      match copyOverlap lblen dst outp lbcur with
      | .ok dst' => .ok (dst', outp + lblen)
      | .err e => .err e
      | .stuck => .stuck
  else .ok (dst, outp)

/-- Outcome of decoding a single instruction in the decoder loop. -/
inductive Step where
  /-- The distinguished terminating M4 instruction was parsed. -/
  | brk (lblen inp : Nat)
  /-- A match instruction: copy `lblen` bytes from `lbcur`, then
  `nstate` literal bytes. -/
  | cont (lbcur lblen nstate inp : Nat)
  /-- A long-literal instruction (`state == 0`): literal copied, loop
  continues with `state = 4`. -/
  | lit (inp : Nat) (dst : List Nat) (outp : Nat)
  | fail (e : Err)
  /-- Propagated `stuck` from an inner primitive (provably dead). -/
  | wedge
deriving Repr

/-- Ghost projection: the input cursor carried by a `Step` result
(used to extract cursor equations without eliminating the whole
constructor equality). -/
def Step.cursor : Step → Nat
  | .brk _ i => i
  | .cont _ _ _ i => i
  | .lit i _ _ => i
  | .fail _ => 0
  | .wedge => 0

/-- The shared `if lblen == 2 { lblen += offset * 255 + add + tail }`
length-extension step of the decoder (`add` is 31 for M3, 7 for M4, 15
for literals; `base` is the length value that triggers it). -/
def extend_len (src : List Nat) (base add len inp : Nat) : DRes (Nat × Nat) :=
  if len = base then
    match consume_zero_byte_length src inp with
    | .ok (offset, inp) =>
      match input_byte src inp with
      | .ok (tail, inp) => .ok (len + offset * 255 + add + tail, inp)
      | .err e => .err e
      | .stuck => .stuck
    | .err e => .err e
    | .stuck => .stuck
  else .ok (len, inp)

/-- Decode one instruction byte `inst` of the main decoder loop
(`src/decompress.rs` lines 62–150). -/
def decode_inst (src : List Nat) (inst inp outp state : Nat)
    (dst : List Nat) : Step :=
  if inst &&& 0xC0 ≠ 0 then
    -- [M2]
    match input_byte src inp with
    | .ok (next, inp) =>
      if (next <<< 3) + ((inst >>> 2) &&& 0x7) + 1 ≤ outp then
        .cont (outp - ((next <<< 3) + ((inst >>> 2) &&& 0x7) + 1))
          ((inst >>> 5) + 1) (inst &&& 0x3) inp
      else .fail .lookbehindOverrun
    | .err e => .fail e
    | .stuck => .wedge
  else if inst &&& M3_MARKER ≠ 0 then
    -- [M3]
    match extend_len src 2 31 ((inst &&& 0x1F) + 2) inp with
    | .ok (lblen, inp) =>
      match read_le16 src inp with
      | .ok (raw, inp) =>
        if (raw >>> 2) + 1 ≤ outp then
          .cont (outp - ((raw >>> 2) + 1)) lblen (raw &&& 0x3) inp
        else .fail .lookbehindOverrun
      | .err e => .fail e
      | .stuck => .wedge
    | .err e => .fail e
    | .stuck => .wedge
  else if inst &&& M4_MARKER ≠ 0 then
    -- [M4]
    match extend_len src 2 7 ((inst &&& 0x7) + 2) inp with
    | .ok (lblen, inp) =>
      match read_le16 src inp with
      | .ok (raw, inp) =>
        if ((inst &&& 0x8) <<< 11) + (raw >>> 2) = 0 then .brk lblen inp
        else
          if ((inst &&& 0x8) <<< 11) + (raw >>> 2) + 16384 ≤ outp then
            .cont (outp - (((inst &&& 0x8) <<< 11) + (raw >>> 2) + 16384))
              lblen (raw &&& 0x3) inp
          else .fail .lookbehindOverrun
      | .err e => .fail e
      | .stuck => .wedge
    | .err e => .fail e
    | .stuck => .wedge
  else if state = 0 then
    -- [Literal]
    match extend_len src 3 15 (inst + 3) inp with
    | .ok (len, inp) =>
      match copy_slice src inp dst outp len with
      | .ok (inp, dst, outp) => .lit inp dst outp
      | .err e => .fail e
      | .stuck => .wedge
    | .err e => .fail e
    | .stuck => .wedge
  else if state ≠ 4 then
    -- [M1, short]
    match input_byte src inp with
    | .ok (tail, inp) =>
      if (inst >>> 2) + (tail <<< 2) + 1 ≤ outp then
        .cont (outp - ((inst >>> 2) + (tail <<< 2) + 1)) 2 (inst &&& 0x3) inp
      else .fail .lookbehindOverrun
    | .err e => .fail e
    | .stuck => .wedge
  else
    -- [M1, long]
    match input_byte src inp with
    | .ok (tail, inp) =>
      if (inst >>> 2) + (tail <<< 2) + 2049 ≤ outp then
        .cont (outp - ((inst >>> 2) + (tail <<< 2) + 2049)) 3 (inst &&& 0x3) inp
      else .fail .lookbehindOverrun
    | .err e => .fail e
    | .stuck => .wedge

/-- The main decoder loop (`loop { ... }` in `decompress`), with an
explicit fuel argument; running out of fuel is `stuck` and the safety
theorem shows `src.length + 1` fuel always suffices.  Returns
`(lblen, inp, outp, dst)` at the terminating instruction. -/
def decompress_loop (src : List Nat) :
    Nat → Nat → Nat → Nat → Nat → List Nat →
    DRes (Nat × Nat × Nat × List Nat)
  | 0, _, _, _, _, _ => .stuck
  | fuel + 1, inst0, inp0, outp, state, dst =>
    match (if inp0 > 1 ∨ state > 0 then input_byte src inp0
           else .ok (inst0, inp0) : DRes (Nat × Nat)) with
    | .ok (inst, inp) =>
      match decode_inst src inst inp outp state dst with
      | .brk lblen inp => .ok (lblen, inp, outp, dst)
      | .lit inp dst outp => decompress_loop src fuel inst inp outp 4 dst
      | .cont lbcur lblen nstate inp =>
        match lookback_copy dst outp lbcur lblen with
        | .ok (dst, outp) =>
          match copy_slice src inp dst outp nstate with
          | .ok (inp, dst, outp) =>
            decompress_loop src fuel inst inp outp nstate dst
          | .err e => .err e
          | .stuck => .stuck
        | .err e => .err e
        | .stuck => .stuck
      | .fail e => .err e
      | .wedge => .stuck
    | .err e => .err e
    | .stuck => .stuck

/-- The literal-priming interpretation of the first input byte
(`src/decompress.rs` lines 45–56): returns the advanced input cursor,
buffer, output cursor, and initial `state`. -/
def decompress_prime (src dst : List Nat) (inst inp : Nat) :
    DRes (Nat × List Nat × Nat × Nat) :=
  if inst ≥ 22 then
    match copy_slice src inp dst 0 (inst - 17) with
    | .ok (inp, dst, outp) => .ok (inp, dst, outp, 4)
    | .err e => .err e
    | .stuck => .stuck
  else if inst ≥ 18 then
    match copy_slice src inp dst 0 (inst - 17) with
    | .ok (inp, dst, outp) => .ok (inp, dst, outp, inst - 17)
    | .err e => .err e
    | .stuck => .stuck
  else .ok (inp, dst, 0, 0)

/-- `decompress` (`src/decompress.rs`): decompress `src` into `dst`,
returning the number of bytes written and the final buffer. -/
def decompress (src dst : List Nat) : DRes (Nat × List Nat) :=
  if src.length < 3 then .err .inputOverrun
  else
    match input_byte src 0 with
    | .ok (inst, inp) =>
      match decompress_prime src dst inst inp with
      | .ok (inp, dst, outp, state) =>
        match decompress_loop src (src.length + 1) inst inp outp state dst with
        | .ok (lblen, inp, outp, dst) =>
          if lblen ≠ 3 then .err .error
          else if inp = src.length then .ok (outp, dst)
          else if inp < src.length then .err .inputNotConsumed
          else .err .inputOverrun
        | .err e => .err e
        | .stuck => .stuck
      | .err e => .err e
      | .stuck => .stuck
    | .err e => .err e
    | .stuck => .stuck

/-! ## Compression (`src/compress.rs`) -/

/-- Pointwise update of a function-represented array. -/
def upd (f : Nat → Nat) (i v : Nat) : Nat → Nat :=
  fun j => if j = i then v else f j

/-- Hash chains tracking recent 3-byte sequences (`Match3`).  The four
`u16` arrays are represented as total functions on indices. -/
structure Match3 where
  head : Nat → Nat
  chain_sz : Nat → Nat
  chain : Nat → Nat
  best_len : Nat → Nat

/-- Direct lookup table for 2-byte prefixes (`Match2`). -/
structure Match2 where
  head : Nat → Nat

/-- `Match3::make_key`: 32-bit wrapping mix of 3 window bytes. -/
def Match3.make_key (buffer : Nat → Nat) (pos : Nat) : Nat :=
  let a := buffer pos
  let b := buffer (pos + 1)
  let c := buffer (pos + 2)
  let mix := ((((a <<< 5) % 2 ^ 32) ^^^ b) <<< 5) % 2 ^ 32 ^^^ c
  let prod := (0x9f5f * mix) % 2 ^ 32
  (prod >>> 5) &&& 0x3fff

/-- `Match3::get_head`: the head of a bucket, `0xFFFF` when empty. -/
def Match3.get_head (m : Match3) (key : Nat) : Nat :=
  if m.chain_sz key = 0 then 0xFFFF else m.head key

/-- `Match3::remove`: decrement a bucket's size (saturating). -/
def Match3.remove (m : Match3) (buffer : Nat → Nat) (pos : Nat) : Match3 :=
  let key := Match3.make_key buffer pos
  { m with chain_sz := upd m.chain_sz key (m.chain_sz key - 1) }

/-- `Match3::advance`: insert the current position into the hash chains
and return the prior head with the bounded chain length. -/
def Match3.advance (m : Match3) (wind_b : Nat) (buffer : Nat → Nat) :
    Match3 × Nat × Nat :=
  let key := Match3.make_key buffer wind_b
  let head := m.get_head key
  let chain := upd m.chain wind_b head
  let count0 := m.chain_sz key
  let chain_sz := upd m.chain_sz key ((count0 + 1) % 2 ^ 16)
  let count := if count0 > MAX_MATCH_LEN then MAX_MATCH_LEN else count0
  ({ head := upd m.head key wind_b, chain_sz := chain_sz, chain := chain,
     best_len := m.best_len }, head, count)

/-- `Match3::skip_advance`: advance the chains without searching and
suppress later searches through this position. -/
def Match3.skip_advance (m : Match3) (wind_b : Nat) (buffer : Nat → Nat) :
    Match3 :=
  let key := Match3.make_key buffer wind_b
  { head := upd m.head key wind_b,
    chain_sz := upd m.chain_sz key ((m.chain_sz key + 1) % 2 ^ 16),
    chain := upd m.chain wind_b (m.get_head key),
    best_len := upd m.best_len wind_b (MAX_MATCH_LEN + 1) }

/-- `Match2::make_key`. -/
def Match2.make_key (buffer : Nat → Nat) (pos : Nat) : Nat :=
  buffer pos ^^^ (buffer (pos + 1) <<< 8)

/-- `Match2::add`: overwrite the head for the 2-byte prefix at `pos`. -/
def Match2.add (m : Match2) (pos : Nat) (buffer : Nat → Nat) : Match2 :=
  { head := upd m.head (Match2.make_key buffer pos) pos }

/-- `Match2::remove`: clear the slot only when it still points at `pos`. -/
def Match2.remove (m : Match2) (buffer : Nat → Nat) (pos : Nat) : Match2 :=
  let key := Match2.make_key buffer pos
  if m.head key = pos then { head := upd m.head key 0xFFFF } else m

/-- `Match2::search`: seed a 2-byte match at the current position.
Returns whether a prefix was found, together with the updated
`lb_pos`, `lb_len` and `best_pos`. -/
def Match2.search (m : Match2) (wind_b lb_pos lb_len : Nat)
    (best_pos : Nat → Nat) (buffer : Nat → Nat) :
    Bool × Nat × Nat × (Nat → Nat) :=
  let key := Match2.make_key buffer wind_b
  let pos := m.head key
  if pos = 0xFFFF then (false, lb_pos, lb_len, best_pos)
  else
    let best_pos := if best_pos 2 = 0 then upd best_pos 2 (pos + 1) else best_pos
    if lb_len < 2 then (true, pos, 2, best_pos)
    else (true, lb_pos, lb_len, best_pos)

/-- Sliding window state (`State` in `src/compress.rs`), minus the
borrowed `src` slice which is passed separately. -/
structure EState where
  inp : Nat
  wind_sz : Nat
  wind_b : Nat
  wind_e : Nat
  cycle1_countdown : Nat
  bufp : Nat
  buf_sz : Nat

/-- `State::new`. -/
def EState.start : EState :=
  { inp := 0, wind_sz := 0, wind_b := 0, wind_e := 0,
    cycle1_countdown := 0, bufp := 0, buf_sz := 0 }

/-- `State::get_byte`: advance the window by one byte, maintaining the
mirrored tail. -/
def EState.get_byte (st : EState) (src : List Nat) (buffer : Nat → Nat) :
    EState × (Nat → Nat) :=
  if st.inp ≥ src.length then
    let wind_sz := if st.wind_sz > 0 then st.wind_sz - 1 else st.wind_sz
    let idx := st.wind_e
    let buffer := upd buffer idx 0
    let buffer := if idx < MAX_MATCH_LEN then upd buffer (BUF_SIZE + idx) 0 else buffer
    ({ st with
       wind_sz := wind_sz,
       wind_e := (st.wind_e + 1) % BUF_SIZE,
       wind_b := (st.wind_b + 1) % BUF_SIZE }, buffer)
  else
    let value := src.getD st.inp 0
    let idx := st.wind_e
    let buffer := upd buffer idx value
    let buffer := if idx < MAX_MATCH_LEN then upd buffer (BUF_SIZE + idx) value else buffer
    ({ st with
       inp := st.inp + 1,
       wind_e := (st.wind_e + 1) % BUF_SIZE,
       wind_b := (st.wind_b + 1) % BUF_SIZE }, buffer)

/-- `State::pos2off`: backwards distance within the ring. -/
def EState.pos2off (st : EState) (pos : Nat) : Nat :=
  if st.wind_b > pos then st.wind_b - pos else BUF_SIZE - (pos - st.wind_b)

/-- Dictionary storage (`Dict`): match tables plus the guarded ring
buffer, all function-represented. -/
structure Dict where
  match3 : Match3
  match2 : Match2
  buffer : Nat → Nat

/-- The all-zero dictionary (`Dict::new` / `new_box_zeroed`). -/
def zeroDict : Dict :=
  { match3 := { head := fun _ => 0, chain_sz := fun _ => 0,
                chain := fun _ => 0, best_len := fun _ => 0 },
    match2 := { head := fun _ => 0 },
    buffer := fun _ => 0 }

/-- `Dict::init`: reset the tables and preload the first window. -/
def Dict.init (d : Dict) (src : List Nat) (st : EState) : Dict × EState :=
  let m3 := { d.match3 with chain_sz := fun _ => 0 }
  let m2 : Match2 := { head := fun _ => 0xFFFF }
  let wind_sz := min src.length MAX_MATCH_LEN
  let st := { st with
    cycle1_countdown := MAX_DIST,
    inp := 0,
    wind_sz := wind_sz,
    wind_b := 0,
    wind_e := wind_sz }
  let buffer := fun p => if p < wind_sz then src.getD p 0 else d.buffer p
  let st := { st with inp := st.inp + wind_sz }
  let buffer :=
    if wind_sz < 3 then
      fun p => if st.wind_b + wind_sz ≤ p ∧ p < st.wind_b + 3 then 0 else buffer p
    else buffer
  ({ match3 := m3, match2 := m2, buffer := buffer }, st)

/-- `Dict::reset_next_input_entry`: evict stale entries at the write
head once the warm-up countdown has elapsed. -/
def Dict.reset_next_input_entry (d : Dict) (st : EState) : Dict × EState :=
  if st.cycle1_countdown = 0 then
    let pos := st.wind_e
    ({ d with
       match3 := d.match3.remove d.buffer pos,
       match2 := d.match2.remove d.buffer pos }, st)
  else (d, { st with cycle1_countdown := st.cycle1_countdown - 1 })

/-- One skip-phase step of `Dict::advance` (dictionary re-sync over
bytes already covered by an emitted match). -/
def skip_step (src : List Nat) (d : Dict) (st : EState) : Dict × EState :=
  let (d, st) := Dict.reset_next_input_entry d st
  let d := { d with match3 := d.match3.skip_advance st.wind_b d.buffer }
  let d := { d with match2 := d.match2.add st.wind_b d.buffer }
  let (st, buffer) := st.get_byte src d.buffer
  ({ d with buffer := buffer }, st)

/-- Iterate `skip_step` (the `for _ in 0..prev_len.saturating_sub(1)`
loop). -/
def skip_phase (src : List Nat) : Nat → Dict × EState → Dict × EState
  | 0, ds => ds
  | n + 1, (d, st) => skip_phase src n (skip_step src d st)

/-- Length of the byte-by-byte match extension
(`while matched < window && buffer[ref+matched] == buffer[pos+matched]`). -/
def matched_len (buffer : Nat → Nat) (refPos mPos : Nat) : Nat → Nat
  | 0 => 0
  | w + 1 =>
    if buffer refPos = buffer mPos then
      matched_len buffer (refPos + 1) (mPos + 1) w + 1
    else 0

/-- The 3-byte chain walk inside `Dict::advance`
(`for _ in 0..match_count { ... }`). -/
def chain_walk (m3 : Match3) (buffer : Nat → Nat) (wind_b wind_sz : Nat) :
    Nat → Nat → Nat → Nat → (Nat → Nat) → Nat × Nat × (Nat → Nat)
  | 0, _, lb_len, lb_pos, best_pos => (lb_len, lb_pos, best_pos)
  | count + 1, match_pos, lb_len, lb_pos, best_pos =>
    if match_pos ≥ BUF_SIZE then (lb_len, lb_pos, best_pos)
    else
      let matched := matched_len buffer wind_b match_pos wind_sz
      if 2 ≤ matched then
        let best_pos :=
          if matched < MAX_MATCH_TABLE ∧ best_pos matched = 0 then
            upd best_pos matched (match_pos + 1)
          else best_pos
        if matched > lb_len then
          if matched = wind_sz ∨ matched > m3.best_len match_pos then
            (matched, match_pos, best_pos)
          else
            chain_walk m3 buffer wind_b wind_sz count (m3.chain match_pos)
              matched match_pos best_pos
        else
          chain_walk m3 buffer wind_b wind_sz count (m3.chain match_pos)
            lb_len lb_pos best_pos
      else
        chain_walk m3 buffer wind_b wind_sz count (m3.chain match_pos)
          lb_len lb_pos best_pos

/-- The shared tail of `Dict::advance` (lines 371–384): hash upkeep,
window step, and the `buf_sz`/`bufp` bookkeeping. -/
def advance_tail (src : List Nat) (d : Dict) (st : EState)
    (should_terminate : Bool) (best_off : Nat → Nat) (lb_off lb_len : Nat) :
    Dict × EState × (Nat → Nat) × Nat × Nat :=
  let (d, st) := Dict.reset_next_input_entry d st
  let d := { d with match2 := d.match2.add st.wind_b d.buffer }
  let (st, buffer) := st.get_byte src d.buffer
  let d := { d with buffer := buffer }
  let (st, lb_len) :=
    if should_terminate then ({ st with buf_sz := 0 }, 0)
    else ({ st with buf_sz := st.wind_sz + 1 }, lb_len)
  let st := { st with bufp := st.inp - st.buf_sz }
  (d, st, best_off, lb_off, lb_len)

/-- `Dict::advance`: one step of the match search, returning the updated
dictionary and state, the refreshed `best_off` table and the best match
`(lb_off, lb_len)`. -/
def Dict.advance (d : Dict) (st : EState) (src : List Nat) (prev_len : Nat)
    (best_off : Nat → Nat) (skip : Bool) :
    Dict × EState × (Nat → Nat) × Nat × Nat :=
  let (d, st) := if skip then skip_phase src (prev_len - 1) (d, st) else (d, st)
  let lb_len := 1
  let lb_off := 0
  let lb_pos := 0
  let best_pos : Nat → Nat := fun _ => 0
  let (m3, match_head, count) := d.match3.advance st.wind_b d.buffer
  let d := { d with match3 := m3 }
  let match_count := if match_head = 0xFFFF then 0 else count
  if lb_len ≥ st.wind_sz then
    let should_terminate := st.wind_sz = 0
    let d := { d with match3 := { d.match3 with
      best_len := upd d.match3.best_len st.wind_b (MAX_MATCH_LEN + 1) } }
    advance_tail src d st should_terminate best_off lb_off lb_len
  else
    let (found, lb_pos, lb_len, best_pos) :=
      d.match2.search st.wind_b lb_pos lb_len best_pos d.buffer
    let (lb_len, lb_pos, best_pos) :=
      if found ∧ 3 ≤ st.wind_sz then
        chain_walk d.match3 d.buffer st.wind_b st.wind_sz match_count
          match_head lb_len lb_pos best_pos
      else (lb_len, lb_pos, best_pos)
    let lb_off := if lb_len > 1 then st.pos2off lb_pos else lb_off
    let d := { d with match3 := { d.match3 with
      best_len := upd d.match3.best_len st.wind_b lb_len } }
    let best_off := fun i =>
      if 2 ≤ i ∧ i < MAX_MATCH_TABLE then
        (if best_pos i ≠ 0 then st.pos2off (best_pos i - 1) else 0)
      else best_off i
    advance_tail src d st false best_off lb_off lb_len

/-- `write_dst`: bounds-checked write of a byte slice at `out_pos`. -/
def write_dst (dst : List Nat) (out_pos : Nat) (s : List Nat) :
    CRes (List Nat × Nat) :=
  if out_pos + s.length ≤ dst.length then
    .ok (setSlice dst out_pos s, out_pos + s.length)
  else .err .outputOverrun

/-- Fuel-indexed body of `write_zero_byte_length`
(`while len > 255 { ... }`); `len` itself bounds the iteration count. -/
def zero_run_loop : Nat → List Nat → Nat → Nat → CRes (List Nat × Nat)
  | 0, dst, out_pos, len => write_dst dst out_pos [len % 256]
  | fuel + 1, dst, out_pos, len =>
    if len > 255 then
      match write_dst dst out_pos [0] with
      | .ok (dst, out_pos) => zero_run_loop fuel dst out_pos (len - 255)
      | .err e => .err e
    else write_dst dst out_pos [len % 256]

/-- `write_zero_byte_length`: the zero-run encoding of a residual
length. -/
def write_zero_byte_length (dst : List Nat) (out_pos len : Nat) :
    CRes (List Nat × Nat) :=
  zero_run_loop len dst out_pos len

/-- `*dst_byte_mut(dst, idx)? |= v` (the literal back-patch). -/
def dst_byte_or (dst : List Nat) (idx v : Nat) : CRes (List Nat) :=
  if idx < dst.length then .ok (dst.set idx (dst.getD idx 0 ||| v))
  else .err .outputOverrun

/-- The length-preamble part of `encode_literal_run` (the four-way `if`
chain before the literal payload is copied). -/
def encode_literal_pre (dst : List Nat) (out_pos lit_len : Nat) :
    CRes (List Nat × Nat) :=
  if out_pos = 0 ∧ lit_len ≤ 238 then
    write_dst dst out_pos [(17 + lit_len) % 256]
  else if lit_len ≤ 3 then
    if 2 ≤ out_pos then
      match dst_byte_or dst (out_pos - 2) (lit_len % 256) with
      | .ok dst => .ok (dst, out_pos)
      | .err e => .err e
    else .err .outputOverrun
  else if lit_len ≤ 18 then
    write_dst dst out_pos [(lit_len - 3) % 256]
  else
    match write_dst dst out_pos [0] with
    | .ok (dst, out_pos) => write_zero_byte_length dst out_pos (lit_len - 18)
    | .err e => .err e

/-- `encode_literal_run`: emit a literal run per the LZO opcode rules. -/
def encode_literal_run (dst : List Nat) (out_pos : Nat) (src : List Nat)
    (lit_ptr lit_len : Nat) : CRes (List Nat × Nat) :=
  match encode_literal_pre dst out_pos lit_len with
  | .ok (dst, out_pos) =>
    if lit_ptr + lit_len ≤ src.length then
      write_dst dst out_pos ((src.drop lit_ptr).take lit_len)
    else .err .inputOverrun
  | .err e => .err e

/-- The M3 opcode byte (with optional zero-run length extension)
written by `encode_lookback_match` before the distance pair. -/
def encode_m3_first (dst : List Nat) (out_pos lb_len : Nat) :
    CRes (List Nat × Nat) :=
  if lb_len ≤ M3_MAX_LEN then
    write_dst dst out_pos [(M3_MARKER ||| (lb_len % 256 - 2)) % 256]
  else
    match write_dst dst out_pos [M3_MARKER] with
    | .ok (dst, out_pos) => write_zero_byte_length dst out_pos (lb_len - M3_MAX_LEN)
    | .err e => .err e

/-- The M4 opcode byte (with optional zero-run length extension)
written by `encode_lookback_match` before the distance pair; `off` is
the already-rebased offset `lb_off - M4_BASE_OFFSET`. -/
def encode_m4_first (dst : List Nat) (out_pos lb_len off : Nat) :
    CRes (List Nat × Nat) :=
  if lb_len ≤ M4_MAX_LEN then
    write_dst dst out_pos
      [(M4_MARKER ||| ((off &&& 0x4000) >>> 11) ||| (lb_len % 256 - 2)) % 256]
  else
    match write_dst dst out_pos [(M4_MARKER ||| ((off &&& 0x4000) >>> 11)) % 256] with
    | .ok (dst, out_pos) => write_zero_byte_length dst out_pos (lb_len - M4_MAX_LEN)
    | .err e => .err e

/-- `encode_lookback_match`: emit a back-reference per the LZO opcode
encoding. -/
def encode_lookback_match (dst : List Nat) (out_pos : Nat)
    (lb_len lb_off last_lit_len : Nat) : CRes (List Nat × Nat) :=
  if lb_len = 2 then
    write_dst dst out_pos
      [(((lb_off - 1) &&& 0x3) <<< 2) % 256, ((lb_off - 1) >>> 2) % 256]
  else if lb_len ≤ M2_MAX_LEN ∧ lb_off ≤ M2_MAX_OFFSET then
    write_dst dst out_pos
      [(((lb_len - 1) <<< 5) ||| (((lb_off - 1) &&& 0x7) <<< 2)) % 256,
       ((lb_off - 1) >>> 3) % 256]
  else if lb_len = M2_MIN_LEN ∧ lb_off ≤ M1_MAX_OFFSET + M2_MAX_OFFSET ∧
      4 ≤ last_lit_len then
    write_dst dst out_pos
      [(((lb_off - (1 + M2_MAX_OFFSET)) &&& 0x3) <<< 2) % 256,
       ((lb_off - (1 + M2_MAX_OFFSET)) >>> 2) % 256]
  else if lb_off ≤ M3_MAX_OFFSET then
    match encode_m3_first dst out_pos lb_len with
    | .ok (dst, out_pos) =>
      write_dst dst out_pos
        [((lb_off - 1) <<< 2) % 256, ((lb_off - 1) >>> 6) % 256]
    | .err e => .err e
  else
    match encode_m4_first dst out_pos lb_len (lb_off - M4_BASE_OFFSET) with
    | .ok (dst, out_pos) =>
      write_dst dst out_pos
        [((lb_off - M4_BASE_OFFSET) <<< 2) % 256,
         ((lb_off - M4_BASE_OFFSET) >>> 6) % 256]
    | .err e => .err e

/-- `find_better_match`: the cheaper-opcode substitution heuristic. -/
def find_better_match (best_off : Nat → Nat) (lb_len lb_off : Nat) :
    Nat × Nat :=
  if lb_len ≤ M2_MIN_LEN ∨ lb_off ≤ M2_MAX_OFFSET then (lb_len, lb_off)
  else if lb_off > M2_MAX_OFFSET ∧ M2_MIN_LEN + 1 ≤ lb_len ∧
      lb_len ≤ M2_MAX_LEN + 1 ∧ best_off (lb_len - 1) ≠ 0 ∧
      best_off (lb_len - 1) ≤ M2_MAX_OFFSET then
    (lb_len - 1, best_off (lb_len - 1))
  else if lb_off > M3_MAX_OFFSET ∧ M4_MAX_LEN + 1 ≤ lb_len ∧
      lb_len ≤ M2_MAX_LEN + 2 ∧ best_off (lb_len - 2) ≠ 0 ∧
      best_off lb_len ≤ M2_MAX_OFFSET then
    (lb_len - 2, best_off (lb_len - 2))
  else if lb_off > M3_MAX_OFFSET ∧ M4_MAX_LEN + 1 ≤ lb_len ∧
      lb_len ≤ M3_MAX_LEN + 1 ∧ best_off (lb_len - 1) ≠ 0 ∧
      best_off (lb_len - 2) ≤ M3_MAX_OFFSET then
    (lb_len - 1, best_off (lb_len - 1))
  else (lb_len, lb_off)

/-- The discard predicate of the encoder driver (`compress_impl` lines
592–600): matches that are cheaper to emit as literals are dropped. -/
def discard_match (lb_len lb_off lit_len out_pos : Nat) : Nat :=
  if lb_len < 2 ∨
      (lb_len = 2 ∧ (lb_off > M1_MAX_OFFSET ∨ lit_len = 0 ∨ 4 ≤ lit_len)) ∨
      (lb_len = 2 ∧ out_pos = 0) ∨ (out_pos = 0 ∧ lit_len = 0) then 0
  else if lb_len = M2_MIN_LEN ∧ lb_off > M1_MAX_OFFSET + M2_MAX_OFFSET ∧
      4 ≤ lit_len then 0
  else lb_len

/-- The main encoder loop (`while state.buf_sz > 0`), fuel-indexed; the
fuel `src.length + 8` used by `compress_impl` dominates the iteration
count, which is at most one per window position. -/
def compress_loop (src : List Nat) :
    Nat → Dict → EState → List Nat → Nat → Nat → Nat → (Nat → Nat) →
    Nat → Nat → CRes (List Nat × Nat × Nat × Nat)
  | 0, _, _, _, _, _, _, _, _, _ => .err .error
  | fuel + 1, d, st, dst, out_pos, lit_len, lit_ptr0, best_off, lb_off, lb_len0 =>
    if st.buf_sz = 0 then .ok (dst, out_pos, lit_len, lit_ptr0)
    else
      if discard_match lb_len0 lb_off lit_len out_pos = 0 then
        match Dict.advance d st src 0 best_off false with
        | (d, st', best_off, lb_off, lb_len) =>
          compress_loop src fuel d st' dst out_pos (lit_len + 1)
            (if lit_len = 0 then st.bufp else lit_ptr0) best_off lb_off lb_len
      else
        match find_better_match best_off
            (discard_match lb_len0 lb_off lit_len out_pos) lb_off with
        | (lb_len, lb_off) =>
          match encode_literal_run dst out_pos src
              (if lit_len = 0 then st.bufp else lit_ptr0) lit_len with
          | .ok (dst, out_pos) =>
            match encode_lookback_match dst out_pos lb_len lb_off lit_len with
            | .ok (dst, out_pos) =>
              match Dict.advance d st src lb_len best_off true with
              | (d, st', best_off, lb_off, lb_len) =>
                compress_loop src fuel d st' dst out_pos 0
                  (if lit_len = 0 then st.bufp else lit_ptr0) best_off lb_off lb_len
            | .err e => .err e
          | .err e => .err e

/-- `compress_worst_size`. -/
def compress_worst_size (s : Nat) : Nat := s + s / 16 + 64 + 3

/-- `compress_impl` (also `compress_no_alloc`): the core compression
routine.  Returns the final output buffer and the number of bytes
written. -/
def compress_impl (src dst : List Nat) (d : Dict) : CRes (List Nat × Nat) :=
  match Dict.init d src EState.start with
  | (d, st) =>
    match Dict.advance d st src 0 (fun _ => 0) false with
    | (d2, st2, best_off, lb_off, lb_len) =>
      match compress_loop src (src.length + 8) d2 st2 dst 0 0 st.inp
          best_off lb_off lb_len with
      | .ok (dst, out_pos, lit_len, lit_ptr) =>
        match encode_literal_run dst out_pos src lit_ptr lit_len with
        | .ok (dst, out_pos) =>
          match write_dst dst out_pos [M4_MARKER ||| 1, 0, 0] with
          | .ok (dst, out_pos) => .ok (dst, out_pos)
          | .err e => .err e
        | .err e => .err e
      | .err e => .err e

/-- `compress_with_dict`: allocate a worst-case zeroed buffer, compress,
and truncate to the written size. -/
def compress_with_dict (src : List Nat) (d : Dict) : CRes (List Nat) :=
  match compress_impl src (List.replicate (compress_worst_size src.length) 0) d with
  | .ok (buf, size) => .ok (buf.take size)
  | .err e => .err e

/-- `compress`: compression with a temporary zeroed dictionary. -/
def compress (src : List Nat) : CRes (List Nat) :=
  compress_with_dict src zeroDict

/-! ## Concrete evaluations: round-trip, empty input, overlap run -/

/-- Claim C1: compressing any `src` into a worst-case buffer and
decompressing the result into a buffer of length `src.len()` reproduces
`src`.  This fails on the code at `src = []`: the encoder's final
literal flush takes the first-byte branch of `encode_literal_run` even
for an empty run, emitting `0x11` before the terminator, and the
decoder then parses that `0x11` as an M4 match and fails with
`LookbehindOverrun` instead of returning the empty output. -/
theorem c1_roundtrip_fails_on_empty_input :
    compress ([] : List Nat) = .ok [0x11, 0x11, 0x00, 0x00] ∧
    decompress [0x11, 0x11, 0x00, 0x00] [] = .err .lookbehindOverrun := by
  constructor <;> rfl

/-- Claim C2: the claim states `compress(&[])` yields `[0x11, 0x00,
0x00]`; the code instead yields the four bytes `[0x11, 0x11, 0x00,
0x00]` (the spurious priming byte `17 + 0`), so the first conjunct of
the claim fails, while the decompression half
(`decompress([0x11,0,0], &mut []) = Ok(0)`) does hold. -/
theorem c2_empty_input_bug :
    compress ([] : List Nat) ≠ .ok [0x11, 0x00, 0x00] ∧
    decompress [0x11, 0x00, 0x00] [] = .ok (0, []) := by
  constructor
  · intro h
    have h' : compress ([] : List Nat) = .ok [0x11, 0x11, 0x00, 0x00] := rfl
    rw [h'] at h
    simp at h
  · rfl

/-! ## Buffer-length bookkeeping for the encoder -/

theorem setSlice_length (dst : List Nat) (pos : Nat) (s : List Nat)
    (h : pos + s.length ≤ dst.length) :
    (setSlice dst pos s).length = dst.length := by
  simp only [setSlice, List.length_append, List.length_take, List.length_drop]
  omega

theorem setSlice_window (dst : List Nat) (pos : Nat) (s : List Nat)
    (h : pos + s.length ≤ dst.length) :
    ((setSlice dst pos s).take (pos + s.length)).drop pos = s := by
  have hA : (dst.take pos).length = pos := by
    rw [List.length_take]
    omega
  have hAs : (dst.take pos ++ s).length = pos + s.length := by
    rw [List.length_append, hA]
  rw [setSlice, List.take_left' hAs, List.drop_left' hA]

theorem write_dst_ok (dst : List Nat) (p : Nat) (s : List Nat)
    (dst' : List Nat) (p' : Nat) (h : write_dst dst p s = .ok (dst', p')) :
    p' = p + s.length ∧ p' ≤ dst.length ∧ dst'.length = dst.length ∧
      dst' = setSlice dst p s := by
  unfold write_dst at h
  split at h
  · rename_i hle
    injection h with h
    injection h with h1 h2
    subst h1
    subst h2
    exact ⟨rfl, hle, setSlice_length dst p s hle, rfl⟩
  · cases h

theorem zero_run_loop_length (fuel : Nat) : ∀ (dst : List Nat) (p len : Nat)
    (dst' : List Nat) (p' : Nat),
    zero_run_loop fuel dst p len = .ok (dst', p') →
    dst'.length = dst.length := by
  induction fuel with
  | zero =>
    intro dst p len dst' p' h
    exact (write_dst_ok dst p _ dst' p' h).2.2.1
  | succ fuel ih =>
    intro dst p len dst' p' h
    unfold zero_run_loop at h
    split at h
    · cases hw : write_dst dst p [0] with
      | ok v =>
        obtain ⟨dst1, p1⟩ := v
        rw [hw] at h
        have h1 := (write_dst_ok dst p [0] dst1 p1 hw).2.2.1
        have h2 := ih dst1 p1 (len - 255) dst' p' h
        rw [h2, h1]
      | err e =>
        rw [hw] at h
        cases h
    · exact (write_dst_ok dst p _ dst' p' h).2.2.1

theorem dst_byte_or_length (dst : List Nat) (idx v : Nat) (dst' : List Nat)
    (h : dst_byte_or dst idx v = .ok dst') : dst'.length = dst.length := by
  unfold dst_byte_or at h
  split at h
  · injection h with h
    subst h
    exact List.length_set _ _ _
  · cases h

theorem encode_literal_pre_length (dst : List Nat) (p lit_len : Nat)
    (dst' : List Nat) (p' : Nat)
    (h : encode_literal_pre dst p lit_len = .ok (dst', p')) :
    dst'.length = dst.length := by
  unfold encode_literal_pre at h
  split at h
  · exact (write_dst_ok dst p _ dst' p' h).2.2.1
  · split at h
    · split at h
      · split at h
        · rename_i d2 hb
          injection h with h
          injection h with h1 h2
          subst h1
          exact dst_byte_or_length dst _ _ d2 hb
        · cases h
      · cases h
    · split at h
      · exact (write_dst_ok dst p _ dst' p' h).2.2.1
      · split at h
        · rename_i d2 q2 hw
          have e1 := (write_dst_ok dst p [0] d2 q2 hw).2.2.1
          have e2 := zero_run_loop_length _ d2 q2 (lit_len - 18) dst' p' h
          omega
        · cases h

theorem encode_literal_run_length (dst : List Nat) (p : Nat) (src : List Nat)
    (lit_ptr lit_len : Nat) (dst' : List Nat) (p' : Nat)
    (h : encode_literal_run dst p src lit_ptr lit_len = .ok (dst', p')) :
    dst'.length = dst.length := by
  unfold encode_literal_run at h
  split at h
  · rename_i dst1 p1 hpre
    split at h
    · have e1 := encode_literal_pre_length dst p lit_len dst1 p1 hpre
      have e2 := (write_dst_ok dst1 p1 _ dst' p' h).2.2.1
      omega
    · cases h
  · cases h

theorem encode_m3_first_length (dst : List Nat) (p lb_len : Nat)
    (dst' : List Nat) (p' : Nat)
    (h : encode_m3_first dst p lb_len = .ok (dst', p')) :
    dst'.length = dst.length := by
  unfold encode_m3_first at h
  split at h
  · exact (write_dst_ok dst p _ dst' p' h).2.2.1
  · split at h
    · rename_i d2 q2 hw
      have e1 := (write_dst_ok dst p _ d2 q2 hw).2.2.1
      have e2 := zero_run_loop_length _ d2 q2 (lb_len - M3_MAX_LEN) dst' p' h
      omega
    · cases h

theorem encode_m4_first_length (dst : List Nat) (p lb_len off : Nat)
    (dst' : List Nat) (p' : Nat)
    (h : encode_m4_first dst p lb_len off = .ok (dst', p')) :
    dst'.length = dst.length := by
  unfold encode_m4_first at h
  split at h
  · exact (write_dst_ok dst p _ dst' p' h).2.2.1
  · split at h
    · rename_i d2 q2 hw
      have e1 := (write_dst_ok dst p _ d2 q2 hw).2.2.1
      have e2 := zero_run_loop_length _ d2 q2 (lb_len - M4_MAX_LEN) dst' p' h
      omega
    · cases h

theorem encode_lookback_match_length (dst : List Nat) (p : Nat)
    (lb_len lb_off last_lit_len : Nat) (dst' : List Nat) (p' : Nat)
    (h : encode_lookback_match dst p lb_len lb_off last_lit_len = .ok (dst', p')) :
    dst'.length = dst.length ∧ p' ≤ dst.length := by
  unfold encode_lookback_match at h
  split at h
  · have := write_dst_ok dst p _ dst' p' h
    omega
  · split at h
    · have := write_dst_ok dst p _ dst' p' h
      omega
    · split at h
      · have := write_dst_ok dst p _ dst' p' h
        omega
      · split at h
        · split at h
          · rename_i dst1 p1 hf
            have e1 := encode_m3_first_length dst p lb_len dst1 p1 hf
            have e2 := write_dst_ok dst1 p1 _ dst' p' h
            omega
          · cases h
        · split at h
          · rename_i dst1 p1 hf
            have e1 := encode_m4_first_length dst p lb_len _ dst1 p1 hf
            have e2 := write_dst_ok dst1 p1 _ dst' p' h
            omega
          · cases h

theorem compress_loop_length (src : List Nat) (fuel : Nat) :
    ∀ (d : Dict) (st : EState) (dst : List Nat) (p lit_len lit_ptr : Nat)
      (best_off : Nat → Nat) (lb_off lb_len : Nat)
      (dst' : List Nat) (p' l' q' : Nat),
    compress_loop src fuel d st dst p lit_len lit_ptr best_off lb_off lb_len =
      .ok (dst', p', l', q') →
    dst'.length = dst.length := by
  induction fuel with
  | zero =>
    intro d st dst p lit_len lit_ptr best_off lb_off lb_len dst' p' l' q' h
    cases h
  | succ fuel ih =>
    intro d st dst p lit_len lit_ptr best_off lb_off lb_len dst' p' l' q' h
    unfold compress_loop at h
    split at h
    · injection h with h
      injection h with h1 h
      subst h1
      rfl
    · split at h
      · split at h
        exact ih _ _ _ _ _ _ _ _ _ _ _ _ _ h
      · split at h
        split at h
        · rename_i dst1 p1 hlit
          split at h
          · rename_i dst2 p2 hlb
            split at h
            have e1 := encode_literal_run_length dst p src _ lit_len dst1 p1 hlit
            have e2 := (encode_lookback_match_length dst1 p1 _ _ lit_len dst2 p2 hlb).1
            have e3 := ih _ _ _ _ _ _ _ _ _ _ _ _ _ h
            omega
          · cases h
        · cases h

/-- Claim C4: `compress_worst_size` is exactly `n + n/16 + 64 + 3`, and
every successful compression into a worst-case-sized buffer writes at
most `compress_worst_size (src.length)` bytes (every write into the
output is bounds-checked against the buffer length). -/
theorem c4_worst_size_bound :
    (∀ n, compress_worst_size n = n + n / 16 + 64 + 3) ∧
    (∀ (src dst : List Nat) (d : Dict) (dst' : List Nat) (n : Nat),
      dst.length = compress_worst_size src.length →
      compress_impl src dst d = .ok (dst', n) →
      n ≤ compress_worst_size src.length) := by
  constructor
  · intro n
    rfl
  · intro src dst d dst' n hlen h
    unfold compress_impl at h
    split at h
    rename_i d1 st1 hinit
    split at h
    rename_i d2 st2 bo lo ll hadv
    split at h
    · rename_i dst1 p1 l1 q1 hloop
      split at h
      · rename_i dst2 p2 hlit
        split at h
        · rename_i dst3 p3 hw
          injection h with h
          injection h with h1 h2
          subst h1
          subst h2
          have e1 := compress_loop_length src _ _ _ _ _ _ _ _ _ _ _ _ _ _ hloop
          have e2 := encode_literal_run_length dst1 p1 src q1 l1 dst2 p2 hlit
          have e3 := write_dst_ok dst2 p2 _ dst3 p3 hw
          omega
        · cases h
      · cases h
    · cases h

/-- Witness for C4 at a concrete input: compressing the empty slice
into its worst-case buffer succeeds with 4 bytes written, and
`4 ≤ compress_worst_size 0 = 67`. -/
theorem c4_worst_size_bound_witness : 4 ≤ compress_worst_size 0 :=
  c4_worst_size_bound.2 [] (List.replicate 67 0) zeroDict
    ([17, 17, 0, 0] ++ List.replicate 63 0) 4 (by decide) (by decide)

/-- Claim C5: every successful `compress_impl` run ends by writing the
terminating M4 instruction, so the final three bytes of the output
(`dst'.take n`) are exactly `0x11 0x00 0x00`. -/
theorem c5_terminator :
    ∀ (src dst : List Nat) (d : Dict) (dst' : List Nat) (n : Nat),
    compress_impl src dst d = .ok (dst', n) →
    3 ≤ n ∧ (dst'.take n).drop (n - 3) = [0x11, 0x00, 0x00] := by
  intro src dst d dst' n h
  unfold compress_impl at h
  split at h
  rename_i d1 st1 hinit
  split at h
  rename_i d2 st2 bo lo ll hadv
  split at h
  · rename_i dst1 p1 l1 q1 hloop
    split at h
    · rename_i dst2 p2 hlit
      split at h
      · rename_i dst3 p3 hw
        injection h with h
        injection h with h1 h2
        subst h1
        subst h2
        obtain ⟨hp3, hle, hlen, hdst⟩ := write_dst_ok dst2 p2 _ dst3 p3 hw
        have hlw : ([M4_MARKER ||| 1, 0, 0] : List Nat).length = 3 := rfl
        rw [hlw] at hp3
        subst hdst
        refine ⟨by omega, ?_⟩
        have hb : p2 + 3 ≤ dst2.length := by omega
        have hwin := setSlice_window dst2 p2 [M4_MARKER ||| 1, 0, 0] (by
          rw [hlw]
          exact hb)
        rw [hlw] at hwin
        have h1 : p3 - 3 = p2 := by omega
        rw [hp3, h1] at *
        rw [hwin]
        decide
      · cases h
    · cases h
  · cases h

/-- Witness for C5 at a concrete input: the 4-byte output of
compressing the empty slice ends with `0x11 0x00 0x00`. -/
theorem c5_terminator_witness :
    3 ≤ 4 ∧ ((([17, 17, 0, 0] ++ List.replicate 63 0).take 4).drop (4 - 3)) =
      [0x11, 0x00, 0x00] :=
  c5_terminator [] (List.replicate 67 0) zeroDict
    ([17, 17, 0, 0] ++ List.replicate 63 0) 4 (by decide)

/-! ## Frame property of the decoder (writes stay below the returned
length) -/

theorem setSlice_getElem_ge (dst : List Nat) (pos : Nat) (s : List Nat)
    (i : Nat) (hb : pos + s.length ≤ dst.length) (hi : pos + s.length ≤ i) :
    (setSlice dst pos s)[i]? = dst[i]? := by
  have hA : (dst.take pos).length = pos := by
    rw [List.length_take]
    omega
  have hAs : (dst.take pos ++ s).length = pos + s.length := by
    rw [List.length_append, hA]
  unfold setSlice
  rw [List.append_assoc, ← List.append_assoc,
    List.getElem?_append_right (by rw [hAs]; exact hi), hAs,
    List.getElem?_drop]
  congr 1
  omega

theorem copyOverlap_frame : ∀ (len : Nat) (dst : List Nat) (outp lbcur : Nat)
    (dst' : List Nat), copyOverlap len dst outp lbcur = .ok dst' →
    dst'.length = dst.length ∧ ∀ i, outp + len ≤ i → dst'[i]? = dst[i]? := by
  intro len
  induction len with
  | zero =>
    intro dst outp lbcur dst' h
    injection h with h
    subst h
    exact ⟨rfl, fun i _ => rfl⟩
  | succ n ih =>
    intro dst outp lbcur dst' h
    unfold copyOverlap at h
    split at h
    · rename_i v hv
      split at h
      · obtain ⟨ihl, ihf⟩ := ih (dst.set outp v) (outp + 1) (lbcur + 1) dst' h
        constructor
        · rw [ihl, List.length_set]
        · intro i hi
          rw [ihf i (by omega), List.getElem?_set_ne (by omega)]
      · cases h
    · cases h

theorem copy_slice_ok (src : List Nat) (s : Nat) (dst : List Nat)
    (p len s' : Nat) (dst' : List Nat) (p' : Nat)
    (h : copy_slice src s dst p len = .ok (s', dst', p')) :
    s' = s + len ∧ p' = p + len ∧ dst'.length = dst.length ∧
      ∀ i, p + len ≤ i → dst'[i]? = dst[i]? := by
  unfold copy_slice at h
  split at h
  · rename_i hz
    injection h with h
    injection h with h1 h
    injection h with h2 h3
    subst h1
    subst h2
    subst h3
    subst hz
    exact ⟨rfl, rfl, rfl, fun i _ => rfl⟩
  · split at h
    · split at h
      · rename_i hs hd
        injection h with h
        injection h with h1 h
        injection h with h2 h3
        subst h1
        subst h2
        subst h3
        have hcl : ((src.drop s).take len).length = len := by
          rw [List.length_take, List.length_drop]
          omega
        refine ⟨rfl, rfl, ?_, ?_⟩
        · have := setSlice_length dst p ((src.drop s).take len) (by omega)
          omega
        · intro i hi
          exact setSlice_getElem_ge dst p _ i (by omega) (by omega)
      · cases h
    · cases h

theorem lookback_copy_ok (dst : List Nat) (outp lbcur lblen : Nat)
    (dst' : List Nat) (outp' : Nat)
    (h : lookback_copy dst outp lbcur lblen = .ok (dst', outp')) :
    outp ≤ outp' ∧ dst'.length = dst.length ∧
      ∀ i, outp' ≤ i → dst'[i]? = dst[i]? := by
  unfold lookback_copy at h
  split at h
  · split at h
    · cases h
    · split at h
      · rename_i d2 hco
        injection h with h
        injection h with h1 h2
        subst h1
        subst h2
        obtain ⟨hl, hf⟩ := copyOverlap_frame lblen dst outp lbcur d2 hco
        exact ⟨by omega, hl, fun i hi => hf i hi⟩
      · cases h
      · cases h
  · injection h with h
    injection h with h1 h2
    subst h1
    subst h2
    exact ⟨le_refl _, rfl, fun i _ => rfl⟩

theorem decode_inst_lit (src : List Nat) (inst inp outp state : Nat)
    (dst : List Nat) (inp2 : Nat) (dst2 : List Nat) (outp2 : Nat)
    (h : decode_inst src inst inp outp state dst = .lit inp2 dst2 outp2) :
    outp ≤ outp2 ∧ dst2.length = dst.length ∧
      ∀ i, outp2 ≤ i → dst2[i]? = dst[i]? := by
  unfold decode_inst at h
  repeat' split at h
  all_goals cases h
  rename copy_slice _ _ _ _ _ = _ => hcs
  obtain ⟨_, hp, hl, hf⟩ := copy_slice_ok _ _ _ _ _ _ _ _ hcs
  exact ⟨by omega, hl, by
    intro i hi
    exact hf i (by omega)⟩

theorem decompress_loop_frame (src : List Nat) : ∀ (fuel : Nat)
    (inst inp outp state : Nat) (dst : List Nat)
    (l inpF outpF : Nat) (dstF : List Nat),
    decompress_loop src fuel inst inp outp state dst =
      .ok (l, inpF, outpF, dstF) →
    outp ≤ outpF ∧ dstF.length = dst.length ∧
      ∀ i, outpF ≤ i → dstF[i]? = dst[i]? := by
  intro fuel
  induction fuel with
  | zero =>
    intro inst inp outp state dst l inpF outpF dstF h
    cases h
  | succ fuel ih =>
    intro inst inp outp state dst l inpF outpF dstF h
    unfold decompress_loop at h
    split at h
    · rename_i inst1 inp1 hread
      split at h
      · -- brk
        injection h with h
        injection h with h1 h
        injection h with h2 h
        injection h with h3 h4
        subst h3
        subst h4
        exact ⟨le_refl _, rfl, fun i _ => rfl⟩
      · -- lit
        rename_i inp2 dst2 outp2 hdec
        obtain ⟨ha, hb, hc⟩ := decode_inst_lit src inst1 inp1 outp state dst inp2 dst2 outp2 hdec
        obtain ⟨ia, ib, ic⟩ := ih inst1 inp2 outp2 4 dst2 l inpF outpF dstF h
        refine ⟨by omega, by omega, ?_⟩
        intro i hi
        rw [ic i hi, hc i (by omega)]
      · -- cont
        rename_i lbcur lblen nstate inp2 hdec
        split at h
        · rename_i dst3 outp3 hlb
          split at h
          · rename_i inp4 dst4 outp4 hcs
            obtain ⟨la, lb, lc⟩ := lookback_copy_ok dst outp lbcur lblen dst3 outp3 hlb
            obtain ⟨_, ca, cb, cc⟩ := copy_slice_ok src inp2 dst3 outp3 nstate inp4 dst4 outp4 hcs
            obtain ⟨ia, ib, ic⟩ := ih inst1 inp4 outp4 nstate dst4 l inpF outpF dstF h
            refine ⟨by omega, by omega, ?_⟩
            intro i hi
            rw [ic i hi, cc i (by omega), lc i (by omega)]
          · cases h
          · cases h
        · cases h
        · cases h
      · cases h
      · cases h
    · cases h
    · cases h

/-- Claim C10: whenever `decompress src dst` returns `Ok (n, dst')`,
the output buffer has the same length as `dst` and every byte at index
`n` or beyond is unchanged: all writes of a successful run lie in
`dst[0..n]`. -/
theorem c10_frame :
    ∀ (src dst : List Nat) (n : Nat) (dst' : List Nat),
    decompress src dst = .ok (n, dst') →
    dst'.length = dst.length ∧ ∀ i, n ≤ i → dst'[i]? = dst[i]? := by
  intro src dst n dst' h
  unfold decompress at h
  split at h
  · cases h
  · split at h
    · rename_i inst inp1 hin
      split at h
      · rename_i inp2 dst2 outp2 state2 hprime
        split at h
        · rename_i l3 inp3 outp3 dst3 hloop
          have hpr : outp2 ≤ outp2 ∧ dst2.length = dst.length ∧
              ∀ i, outp2 ≤ i → dst2[i]? = dst[i]? := by
            unfold decompress_prime at hprime
            split at hprime
            · split at hprime
              · rename_i inp5 dst5 outp5 hcs
                injection hprime with hp
                injection hp with h1 hp
                injection hp with h2 hp
                injection hp with h3 h4
                subst h1
                subst h2
                subst h3
                obtain ⟨_, ca, cb, cc⟩ := copy_slice_ok src inp1 dst 0 (inst - 17) inp5 dst5 outp5 hcs
                exact ⟨le_refl _, cb, fun i hi => cc i (by omega)⟩
              · cases hprime
              · cases hprime
            · split at hprime
              · split at hprime
                · rename_i inp5 dst5 outp5 hcs
                  injection hprime with hp
                  injection hp with h1 hp
                  injection hp with h2 hp
                  injection hp with h3 h4
                  subst h1
                  subst h2
                  subst h3
                  obtain ⟨_, ca, cb, cc⟩ := copy_slice_ok src inp1 dst 0 (inst - 17) inp5 dst5 outp5 hcs
                  exact ⟨le_refl _, cb, fun i hi => cc i (by omega)⟩
                · cases hprime
                · cases hprime
              · injection hprime with hp
                injection hp with h1 hp
                injection hp with h2 hp
                injection hp with h3 h4
                subst h1
                subst h2
                subst h3
                subst h4
                exact ⟨le_refl _, rfl, fun i _ => rfl⟩
          obtain ⟨_, pb, pc⟩ := hpr
          obtain ⟨la, lb, lc⟩ := decompress_loop_frame src (src.length + 1)
            inst inp2 outp2 state2 dst2 l3 inp3 outp3 dst3 hloop
          split at h
          · cases h
          · split at h
            · injection h with h
              injection h with h1 h2
              subst h1
              subst h2
              refine ⟨by omega, ?_⟩
              intro i hi
              rw [lc i hi, pc i (by omega)]
            · split at h <;> cases h
        · cases h
        · cases h
      · cases h
      · cases h
    · cases h
    · cases h

/-- Witness for C10 at a concrete input: decompressing the bare
terminator into `[7, 8]` returns `Ok 0` and leaves the buffer
untouched. -/
theorem c10_frame_witness :
    ([7, 8] : List Nat).length = ([7, 8] : List Nat).length ∧
      ∀ i, 0 ≤ i → ([7, 8] : List Nat)[i]? = ([7, 8] : List Nat)[i]? :=
  c10_frame [0x11, 0x00, 0x00] [7, 8] 0 [7, 8] (by decide)

/-! ## Totality of the decoder (claim C9): no execution is `stuck` -/

theorem input_byte_not_stuck (src : List Nat) (i : Nat) :
    input_byte src i ≠ .stuck := by
  unfold input_byte
  split <;> intro h <;> cases h

theorem input_byte_ok (src : List Nat) (i b i2 : Nat)
    (h : input_byte src i = .ok (b, i2)) : i2 = i + 1 ∧ i < src.length := by
  unfold input_byte at h
  split at h
  · rename_i v hv
    injection h with h
    injection h with h1 h2
    subst h2
    exact ⟨rfl, List.get?_eq_some.mp hv |>.1⟩
  · cases h

theorem read_le16_not_stuck (src : List Nat) (i : Nat) :
    read_le16 src i ≠ .stuck := by
  unfold read_le16 input_slice
  split
  · rename_i h
    split at h <;> cases h
    intro h
    cases h
  · rename_i h
    split at h <;> cases h
    intro h
    cases h
  · rename_i h
    split at h <;> cases h

theorem read_le16_ok (src : List Nat) (i raw i2 : Nat)
    (h : read_le16 src i = .ok (raw, i2)) :
    i2 = i + 2 ∧ i2 ≤ src.length := by
  unfold read_le16 input_slice at h
  split at h
  · rename_i hx
    split at hx
    · rename_i hle
      injection hx with hx
      injection hx with hx1 hx2
      injection h with h
      injection h with h1 h2
      subst h2
      subst hx2
      exact ⟨rfl, hle⟩
    · cases hx
  · cases h
  · cases h

theorem consume_zero_byte_length_not_stuck (src : List Nat) (i : Nat) :
    consume_zero_byte_length src i ≠ .stuck := by
  unfold consume_zero_byte_length
  split <;> intro h <;> cases h

theorem countZerosAux_le (l : List Nat) : countZerosAux l ≤ l.length := by
  induction l with
  | nil => exact le_refl _
  | cons b rest ih =>
    unfold countZerosAux
    split
    · simp only [List.length_cons]
      omega
    · simp

theorem consume_zero_byte_length_ok (src : List Nat) (i off i2 : Nat)
    (h : consume_zero_byte_length src i = .ok (off, i2)) :
    i2 = i + off ∧ off ≤ src.length - i := by
  unfold consume_zero_byte_length at h
  split at h
  · cases h
  · injection h with h
    injection h with h1 h2
    subst h1
    subst h2
    have hb := countZerosAux_le (src.drop i)
    rw [List.length_drop] at hb
    exact ⟨rfl, hb⟩

theorem extend_len_not_stuck (src : List Nat) (b a l i : Nat) :
    extend_len src b a l i ≠ .stuck := by
  intro h
  unfold extend_len at h
  split at h
  · split at h
    · split at h
      · cases h
      · cases h
      · rename_i hib
        exact input_byte_not_stuck _ _ hib
    · cases h
    · rename_i hcz
      exact consume_zero_byte_length_not_stuck _ _ hcz
  · cases h

theorem extend_len_ok (src : List Nat) (b a l i l2 i2 : Nat)
    (h : extend_len src b a l i = .ok (l2, i2)) :
    (i2 = i ∧ i ≤ max i src.length) ∨ (i < i2 ∧ i2 ≤ src.length) := by
  unfold extend_len at h
  split at h
  · split at h
    · rename_i off imid hcz
      split at h
      · rename_i t i3 hib
        injection h with h
        injection h with h1 h2
        subst h2
        obtain ⟨h3, h4⟩ := input_byte_ok src imid t i3 hib
        obtain ⟨h5, h6⟩ := consume_zero_byte_length_ok src i off imid hcz
        right
        omega
      · cases h
      · cases h
    · cases h
    · cases h
  · injection h with h
    injection h with h1 h2
    subst h2
    left
    exact ⟨rfl, le_max_left _ _⟩

theorem copy_slice_not_stuck (src : List Nat) (s : Nat) (dst : List Nat)
    (p len : Nat) : copy_slice src s dst p len ≠ .stuck := by
  unfold copy_slice
  split
  · intro h
    cases h
  · split
    · split <;> intro h <;> cases h
    · intro h
      cases h

theorem copy_slice_src_bound (src : List Nat) (s : Nat) (dst : List Nat)
    (p len s' : Nat) (dst' : List Nat) (p' : Nat)
    (h : copy_slice src s dst p len = .ok (s', dst', p')) :
    s' = s + len ∧ (len = 0 ∨ s' ≤ src.length) := by
  unfold copy_slice at h
  split at h
  · rename_i hz
    injection h with h
    injection h with h1 h
    subst h1
    subst hz
    exact ⟨rfl, Or.inl rfl⟩
  · split at h
    · split at h
      · rename_i hz hs hd
        injection h with h
        injection h with h1 h
        subst h1
        exact ⟨rfl, Or.inr hs⟩
      · cases h
    · cases h

theorem copyOverlap_total : ∀ (len : Nat) (dst : List Nat) (outp lbcur : Nat),
    outp + len ≤ dst.length → lbcur + len ≤ dst.length →
    ∃ dst', copyOverlap len dst outp lbcur = .ok dst' := by
  intro len
  induction len with
  | zero =>
    intro dst outp lbcur _ _
    exact ⟨dst, rfl⟩
  | succ n ih =>
    intro dst outp lbcur ho hl
    unfold copyOverlap
    have hlb : lbcur < dst.length := by omega
    cases hv : dst.get? lbcur with
    | none =>
      rw [List.get?_eq_none] at hv
      omega
    | some v =>
      have hov : outp < dst.length := by omega
      obtain ⟨dst', hd⟩ := ih (dst.set outp v) (outp + 1) (lbcur + 1)
        (by rw [List.length_set]; omega) (by rw [List.length_set]; omega)
      refine ⟨dst', ?_⟩
      simp only [hov, if_true]
      exact hd

theorem lookback_copy_not_stuck (dst : List Nat) (outp lbcur lblen : Nat) :
    lookback_copy dst outp lbcur lblen ≠ .stuck := by
  unfold lookback_copy
  split
  · split
    · intro h
      cases h
    · rename_i hb
      obtain ⟨dst', hco⟩ := copyOverlap_total lblen dst outp lbcur
        (by omega) (by omega)
      rw [hco]
      intro h
      cases h
  · intro h
    cases h

/-- The extended length is positive when the pre-extension length is. -/
theorem extend_len_pos (src : List Nat) (b a l i l2 i2 : Nat) (hl : 0 < l)
    (h : extend_len src b a l i = .ok (l2, i2)) : 0 < l2 := by
  unfold extend_len at h
  split at h
  · split at h
    · split at h
      · injection h with h
        injection h with h1 h2
        omega
      · cases h
      · cases h
    · cases h
    · cases h
  · injection h with h
    injection h with h1 h2
    omega

theorem decode_inst_not_wedge (src : List Nat) (inst inp outp state : Nat)
    (dst : List Nat) : decode_inst src inst inp outp state dst ≠ .wedge := by
  intro h
  unfold decode_inst at h
  repeat' split at h
  all_goals try cases h
  all_goals first
    | exact input_byte_not_stuck _ _ (by assumption)
    | exact read_le16_not_stuck _ _ (by assumption)
    | exact extend_len_not_stuck _ _ _ _ _ (by assumption)
    | exact copy_slice_not_stuck _ _ _ _ _ (by assumption)

theorem decode_inst_cont_bound (src : List Nat) (inst inp outp state : Nat)
    (dst : List Nat) (lbcur lblen nstate i2 : Nat)
    (h : decode_inst src inst inp outp state dst = .cont lbcur lblen nstate i2) :
    inp < i2 ∧ i2 ≤ src.length := by
  unfold decode_inst at h
  split at h
  · split at h
    · rename_i next i3 hib
      split at h
      · have e4 := congrArg Step.cursor h
        simp only [Step.cursor] at e4
        obtain ⟨f1, f2⟩ := input_byte_ok _ _ _ _ hib
        omega
      · cases h
    · cases h
    · cases h
  · split at h
    · split at h
      · rename_i l3 i3 hext
        split at h
        · rename_i raw i4 hle
          split at h
          · have e4 := congrArg Step.cursor h
            simp only [Step.cursor] at e4
            obtain f := extend_len_ok _ _ _ _ _ _ _ hext
            obtain ⟨f1, f2⟩ := read_le16_ok _ _ _ _ hle
            rcases f with ⟨e5, e6⟩ | ⟨e5, e6⟩ <;> omega
          · cases h
        · cases h
        · cases h
      · cases h
      · cases h
    · split at h
      · split at h
        · rename_i l3 i3 hext
          split at h
          · rename_i raw i4 hle
            split at h
            · cases h
            · split at h
              · have e4 := congrArg Step.cursor h
                simp only [Step.cursor] at e4
                obtain f := extend_len_ok _ _ _ _ _ _ _ hext
                obtain ⟨f1, f2⟩ := read_le16_ok _ _ _ _ hle
                rcases f with ⟨e5, e6⟩ | ⟨e5, e6⟩ <;> omega
              · cases h
          · cases h
          · cases h
        · cases h
        · cases h
      · split at h
        · split at h
          · split at h <;> cases h
          · cases h
          · cases h
        · split at h
          · split at h
            · rename_i next i3 hib
              split at h
              · have e4 := congrArg Step.cursor h
                simp only [Step.cursor] at e4
                obtain ⟨f1, f2⟩ := input_byte_ok _ _ _ _ hib
                omega
              · cases h
            · cases h
            · cases h
          · split at h
            · rename_i next i3 hib
              split at h
              · have e4 := congrArg Step.cursor h
                simp only [Step.cursor] at e4
                obtain ⟨f1, f2⟩ := input_byte_ok _ _ _ _ hib
                omega
              · cases h
            · cases h
            · cases h

theorem decode_inst_lit_bound (src : List Nat) (inst inp outp state : Nat)
    (dst : List Nat) (i2 : Nat) (dst2 : List Nat) (outp2 : Nat)
    (h : decode_inst src inst inp outp state dst = .lit i2 dst2 outp2) :
    inp < i2 ∧ i2 ≤ src.length := by
  unfold decode_inst at h
  repeat' split at h
  all_goals cases h
  rename copy_slice _ _ _ _ _ = _ => hcs
  rename extend_len _ _ _ _ _ = _ => hext
  obtain h1 := extend_len_ok _ _ _ _ _ _ _ hext
  obtain ⟨h2, h3⟩ := copy_slice_src_bound _ _ _ _ _ _ _ _ hcs
  have hpos := extend_len_pos _ _ _ _ _ _ _ (by omega) hext
  rcases h1 with ⟨e1, e2⟩ | ⟨e1, e2⟩ <;> rcases h3 with h3 | h3 <;> omega

theorem decode_inst_brk_bound (src : List Nat) (inst inp outp state : Nat)
    (dst : List Nat) (l i2 : Nat)
    (h : decode_inst src inst inp outp state dst = .brk l i2) :
    inp + 2 ≤ i2 ∧ i2 ≤ src.length := by
  unfold decode_inst at h
  repeat' split at h
  all_goals cases h
  rename read_le16 _ _ = _ => hle
  rename extend_len _ _ _ _ _ = _ => hext
  obtain h1 := extend_len_ok _ _ _ _ _ _ _ hext
  obtain ⟨h2, h3⟩ := read_le16_ok _ _ _ _ hle
  rcases h1 with ⟨e1, e2⟩ | ⟨e1, e2⟩ <;> omega

theorem decompress_loop_not_stuck (src : List Nat) : ∀ (fuel : Nat)
    (inst inp outp state : Nat) (dst : List Nat),
    inp ≤ src.length → src.length + 1 ≤ fuel + inp →
    decompress_loop src fuel inst inp outp state dst ≠ .stuck := by
  intro fuel
  induction fuel with
  | zero =>
    intro inst inp outp state dst h1 h2
    omega
  | succ fuel ih =>
    intro inst inp outp state dst h1 h2 h
    unfold decompress_loop at h
    split at h
    · rename_i inst1 inp1 hread
      have hinp1 : inp ≤ inp1 ∧ inp1 ≤ src.length := by
        revert hread
        split
        · intro hread
          obtain ⟨e1, e2⟩ := input_byte_ok src inp inst1 inp1 hread
          omega
        · intro hread
          injection hread with hread
          injection hread with e1 e2
          omega
      split at h
      · cases h
      · rename_i i2 d2 o2 hdec
        obtain ⟨b1, b2⟩ := decode_inst_lit_bound src inst1 inp1 outp state dst i2 d2 o2 hdec
        exact ih inst1 i2 o2 4 d2 b2 (by omega) h
      · rename_i lbcur lblen nstate i2 hdec
        obtain ⟨b1, b2⟩ := decode_inst_cont_bound src inst1 inp1 outp state dst
          lbcur lblen nstate i2 hdec
        split at h
        · rename_i d3 o3 hlb
          split at h
          · rename_i i4 d4 o4 hcs
            obtain ⟨e1, e2⟩ := copy_slice_src_bound src i2 d3 o3 nstate i4 d4 o4 hcs
            have : i4 ≤ src.length := by
              rcases e2 with e2 | e2 <;> omega
            exact ih inst1 i4 o4 nstate d4 this (by omega) h
          · cases h
          · exact copy_slice_not_stuck src i2 d3 o3 nstate (by
              rename_i hcs
              exact hcs)
        · cases h
        · exact lookback_copy_not_stuck dst outp lbcur lblen (by
            rename_i hlb
            exact hlb)
      · cases h
      · exact decode_inst_not_wedge src inst1 inp1 outp state dst (by
          rename_i hdec
          exact hdec)
    · cases h
    · rename_i hread
      revert hread
      split
      · exact input_byte_not_stuck src inp
      · intro hread
        cases hread

/-- Claim C9: `decompress` is total and never panics.  In the model,
every way the Rust code could panic — a raw `dst[outp + i]` /
`dst[lbcur + i]` index out of bounds in the overlap copy, or a
non-terminating loop (modelled by fuel exhaustion; the instruction
cursor strictly advances each iteration, so `src.length + 1` fuel
suffices) — is the distinguished result `stuck`, and no input produces
it: the result is always `Ok` or one of the five `Error` values. -/
theorem c9_no_panic : ∀ (src dst : List Nat), decompress src dst ≠ .stuck := by
  intro src dst h
  unfold decompress at h
  split at h
  · cases h
  · rename_i hlen
    split at h
    · rename_i inst inp1 hin
      obtain ⟨e1, e2⟩ := input_byte_ok src 0 inst inp1 hin
      split at h
      · rename_i inp2 dst2 outp2 state2 hprime
        have hinp2 : inp2 ≤ src.length := by
          unfold decompress_prime at hprime
          split at hprime
          · split at hprime
            · rename_i i5 d5 o5 hcs
              injection hprime with hp
              injection hp with hp1 hp
              subst hp1
              obtain ⟨f1, f2⟩ := copy_slice_src_bound _ _ _ _ _ _ _ _ hcs
              rcases f2 with f2 | f2 <;> omega
            · cases hprime
            · cases hprime
          · split at hprime
            · split at hprime
              · rename_i i5 d5 o5 hcs
                injection hprime with hp
                injection hp with hp1 hp
                subst hp1
                obtain ⟨f1, f2⟩ := copy_slice_src_bound _ _ _ _ _ _ _ _ hcs
                rcases f2 with f2 | f2 <;> omega
              · cases hprime
              · cases hprime
            · injection hprime with hp
              injection hp with hp1 hp
              subst hp1
              omega
        split at h
        · repeat' split at h
          all_goals cases h
        · cases h
        · exact decompress_loop_not_stuck src (src.length + 1) inst inp2 outp2
            state2 dst2 hinp2 (by omega) (by
              rename_i hloop
              exact hloop)
      · cases h
      · rename_i hprime
        revert hprime
        unfold decompress_prime
        split
        · split
          · intro hp
            cases hp
          · intro hp
            cases hp
          · rename_i hcs
            exact absurd hcs (copy_slice_not_stuck _ _ _ _ _)
        · split
          · split
            · intro hp
              cases hp
            · intro hp
              cases hp
            · rename_i hcs
              exact absurd hcs (copy_slice_not_stuck _ _ _ _ _)
          · intro hp
            cases hp
    · cases h
    · rename_i hin
      exact input_byte_not_stuck src 0 hin

/-! ## Truncation detection (claim C8): the decoder run on a valid
stream, replayed on the stream minus its last byte, behaves identically
up to the final little-endian distance read and then fails with
`InputOverrun`. -/

theorem getElem_take_eq (src : List Nat) (k i : Nat) (h : i < k) :
    (src.take k)[i]? = src[i]? := by
  rw [List.getElem?_take, if_pos h]

theorem input_byte_take (src : List Nat) (k i b i2 : Nat)
    (h : input_byte src i = .ok (b, i2)) (hb : i2 ≤ k) :
    input_byte (src.take k) i = .ok (b, i2) := by
  unfold input_byte at h ⊢
  rw [List.get?_eq_getElem?] at h ⊢
  obtain ⟨e1, _⟩ := input_byte_ok src i b i2 (by
    unfold input_byte
    rw [List.get?_eq_getElem?]
    exact h)
  rw [getElem_take_eq src k i (by omega)]
  exact h

theorem read_le16_take (src : List Nat) (k i raw i2 : Nat)
    (h : read_le16 src i = .ok (raw, i2)) (hb : i2 ≤ k)
    (hk : k ≤ src.length) : read_le16 (src.take k) i = .ok (raw, i2) := by
  obtain ⟨e1, e2⟩ := read_le16_ok src i raw i2 h
  unfold read_le16 input_slice at h ⊢
  rw [if_pos (by omega)] at h
  rw [if_pos (by rw [List.length_take_of_le hk]; omega)]
  rw [List.drop_take, List.take_take] at *
  have : min 2 (k - i) = 2 := by omega
  rw [this]
  exact h

theorem read_le16_take_fail (src : List Nat) (k i : Nat)
    (hk : k ≤ src.length) (h : k < i + 2) :
    read_le16 (src.take k) i = .err .inputOverrun := by
  unfold read_le16 input_slice
  rw [if_neg (by rw [List.length_take_of_le hk]; omega)]

theorem countZerosAux_take (l : List Nat) : ∀ (m : Nat),
    countZerosAux l < m → countZerosAux (l.take m) = countZerosAux l := by
  induction l with
  | nil =>
    intro m _
    rw [List.take_nil]
  | cons b rest ih =>
    intro m hm
    simp only [countZerosAux] at hm
    by_cases hb : b = 0
    · rw [if_pos hb] at hm
      obtain ⟨m', rfl⟩ : ∃ m', m = m' + 1 := ⟨m - 1, by omega⟩
      rw [List.take_succ_cons]
      simp only [countZerosAux]
      rw [if_pos hb, if_pos hb, ih m' (by omega)]
    · rw [if_neg hb] at hm
      obtain ⟨m', rfl⟩ : ∃ m', m = m' + 1 := ⟨m - 1, by omega⟩
      rw [List.take_succ_cons]
      simp only [countZerosAux]
      rw [if_neg hb, if_neg hb]

theorem consume_zero_take (src : List Nat) (k i off i2 : Nat)
    (h : consume_zero_byte_length src i = .ok (off, i2)) (hb : i2 + 1 ≤ k)
    (hk : k ≤ src.length) :
    consume_zero_byte_length (src.take k) i = .ok (off, i2) := by
  obtain ⟨e1, e2⟩ := consume_zero_byte_length_ok src i off i2 h
  unfold consume_zero_byte_length at h
  split at h
  · cases h
  · rename_i hmax
    injection h with h
    injection h with h1 h2
    have hcz : countZeros (src.take k) i = countZeros src i := by
      unfold countZeros
      rw [List.drop_take, countZerosAux_take (src.drop i) (k - i) (by
        unfold countZeros at h1
        omega)]
    unfold consume_zero_byte_length
    rw [hcz]
    rw [if_neg (by omega)]
    rw [h1, e1]

theorem extend_len_take (src : List Nat) (k b a l i l2 i2 : Nat)
    (h : extend_len src b a l i = .ok (l2, i2)) (hb : i2 ≤ k)
    (hk : k ≤ src.length) :
    extend_len (src.take k) b a l i = .ok (l2, i2) := by
  unfold extend_len at h ⊢
  split at h
  · rename_i hl
    rw [if_pos hl]
    split at h
    · rename_i off imid hcz
      split at h
      · rename_i t i3 hib
        injection h with h
        injection h with h1 h2
        subst h1
        subst h2
        obtain ⟨f1, f2⟩ := input_byte_ok src imid t i3 hib
        rw [consume_zero_take src k i off imid hcz (by omega) hk]
        simp only []
        rw [input_byte_take src k imid t i3 hib (by omega)]
      · cases h
      · cases h
    · cases h
    · cases h
  · rename_i hl
    rw [if_neg hl]
    exact h

theorem copy_slice_take (src : List Nat) (k s : Nat) (dst : List Nat)
    (p n s' : Nat) (dst' : List Nat) (p' : Nat)
    (h : copy_slice src s dst p n = .ok (s', dst', p')) (hb : s' ≤ k)
    (hk : k ≤ src.length) :
    copy_slice (src.take k) s dst p n = .ok (s', dst', p') := by
  obtain ⟨e1, e2⟩ := copy_slice_src_bound src s dst p n s' dst' p' h
  unfold copy_slice at h ⊢
  split at h
  · rename_i hz
    rw [if_pos hz]
    exact h
  · rename_i hz
    rw [if_neg hz]
    split at h
    · split at h
      · rename_i hs hd
        rw [if_pos (by rw [List.length_take_of_le hk]; omega)]
        rw [if_pos hd]
        rw [List.drop_take, List.take_take]
        have : min n (k - s) = n := by omega
        rw [this]
        exact h
      · cases h
    · cases h

theorem decode_inst_take_cont (src : List Nat) (k inst inp outp state : Nat)
    (dst : List Nat) (lbcur lblen nstate i2 : Nat)
    (h : decode_inst src inst inp outp state dst = .cont lbcur lblen nstate i2)
    (hb : i2 ≤ k) (hk : k ≤ src.length) :
    decode_inst (src.take k) inst inp outp state dst =
      .cont lbcur lblen nstate i2 := by
  unfold decode_inst at h ⊢
  split at h
  · -- M2
    rename_i c0
    rw [if_pos c0]
    split at h
    · rename_i next i3 hib
      split at h
      · rename_i hdist
        have e4 := congrArg Step.cursor h
        simp only [ Step.cursor] at e4
        rw [input_byte_take src k inp next i3 hib (by omega)]
        simp only []
        rw [if_pos hdist]
        exact h
      · cases h
    · cases h
    · cases h
  · rename_i c0
    rw [if_neg c0]
    split at h
    · -- M3
      rename_i c1
      rw [if_pos c1]
      split at h
      · rename_i l3 i3 hext
        split at h
        · rename_i raw i4 hle
          split at h
          · rename_i hdist
            have e4 := congrArg Step.cursor h
            simp only [ Step.cursor] at e4
            obtain ⟨f1, f2⟩ := read_le16_ok src i3 raw i4 hle
            rw [extend_len_take src k 2 31 ((inst &&& 0x1F) + 2) inp l3 i3 hext
              (by omega) hk]
            simp only []
            rw [read_le16_take src k i3 raw i4 hle (by omega) hk]
            simp only []
            rw [if_pos hdist]
            exact h
          · cases h
        · cases h
        · cases h
      · cases h
      · cases h
    · rename_i c1
      rw [if_neg c1]
      split at h
      · -- M4 (non-terminating)
        rename_i c2
        rw [if_pos c2]
        split at h
        · rename_i l3 i3 hext
          split at h
          · rename_i raw i4 hle
            split at h
            · cases h
            · rename_i hbase
              split at h
              · rename_i hdist
                have e4 := congrArg Step.cursor h
                simp only [ Step.cursor] at e4
                obtain ⟨f1, f2⟩ := read_le16_ok src i3 raw i4 hle
                rw [extend_len_take src k 2 7 ((inst &&& 0x7) + 2) inp l3 i3 hext
                  (by omega) hk]
                simp only []
                rw [read_le16_take src k i3 raw i4 hle (by omega) hk]
                simp only []
                rw [if_neg hbase, if_pos hdist]
                exact h
              · cases h
          · cases h
          · cases h
        · cases h
        · cases h
      · rename_i c2
        rw [if_neg c2]
        split at h
        · -- literal: cannot produce .cont
          rename_i c3
          rw [if_pos c3]
          split at h
          · split at h <;> cases h
          · cases h
          · cases h
        · rename_i c3
          rw [if_neg c3]
          split at h
          · -- M1 short
            rename_i c4
            rw [if_pos c4]
            split at h
            · rename_i next i3 hib
              split at h
              · rename_i hdist
                have e4 := congrArg Step.cursor h
                simp only [ Step.cursor] at e4
                rw [input_byte_take src k inp next i3 hib (by omega)]
                simp only []
                rw [if_pos hdist]
                exact h
              · cases h
            · cases h
            · cases h
          · -- M1 long
            rename_i c4
            rw [if_neg c4]
            split at h
            · rename_i next i3 hib
              split at h
              · rename_i hdist
                have e4 := congrArg Step.cursor h
                simp only [ Step.cursor] at e4
                rw [input_byte_take src k inp next i3 hib (by omega)]
                simp only []
                rw [if_pos hdist]
                exact h
              · cases h
            · cases h
            · cases h

theorem decode_inst_take_lit (src : List Nat) (k inst inp outp state : Nat)
    (dst : List Nat) (i2 : Nat) (dst2 : List Nat) (outp2 : Nat)
    (h : decode_inst src inst inp outp state dst = .lit i2 dst2 outp2)
    (hb : i2 ≤ k) (hk : k ≤ src.length) :
    decode_inst (src.take k) inst inp outp state dst = .lit i2 dst2 outp2 := by
  unfold decode_inst at h ⊢
  split at h
  · split at h
    · split at h <;> cases h
    · cases h
    · cases h
  · rename_i c0
    rw [if_neg c0]
    split at h
    · split at h
      · split at h
        · split at h <;> cases h
        · cases h
        · cases h
      · cases h
      · cases h
    · rename_i c1
      rw [if_neg c1]
      split at h
      · split at h
        · split at h
          · split at h
            · cases h
            · split at h <;> cases h
          · cases h
          · cases h
        · cases h
        · cases h
      · rename_i c2
        rw [if_neg c2]
        split at h
        · rename_i c3
          rw [if_pos c3]
          split at h
          · rename_i l3 i3 hext
            split at h
            · rename_i i4 dst4 outp4 hcs
              have hinj := h
              injection hinj with e1 e2 e3
              obtain ⟨f1, f2⟩ := copy_slice_src_bound src i3 dst outp l3 i4 dst4 outp4 hcs
              have hpos := extend_len_pos src 3 15 (inst + 3) inp l3 i3 (by omega) hext
              have hi4 : i4 ≤ k := by omega
              have hi3 : i3 ≤ k := by
                rcases f2 with f2 | f2 <;> omega
              rw [extend_len_take src k 3 15 (inst + 3) inp l3 i3 hext hi3 hk]
              simp only []
              rw [copy_slice_take src k i3 dst outp l3 i4 dst4 outp4 hcs hi4 hk]
              simp only []
              exact h
            · cases h
            · cases h
          · cases h
          · cases h
        · rename_i c3
          rw [if_neg c3]
          split at h
          · split at h
            · split at h <;> cases h
            · cases h
            · cases h
          · split at h
            · split at h <;> cases h
            · cases h
            · cases h

theorem decode_inst_take_brk (src : List Nat) (inst inp outp state : Nat)
    (dst : List Nat) (l i2 : Nat)
    (h : decode_inst src inst inp outp state dst = .brk l i2)
    (hend : i2 = src.length) (hlen : 1 ≤ src.length) :
    decode_inst (src.take (src.length - 1)) inst inp outp state dst =
      .fail .inputOverrun := by
  unfold decode_inst at h ⊢
  split at h
  · split at h
    · split at h <;> cases h
    · cases h
    · cases h
  · rename_i c0
    rw [if_neg c0]
    split at h
    · split at h
      · split at h
        · split at h <;> cases h
        · cases h
        · cases h
      · cases h
      · cases h
    · rename_i c1
      rw [if_neg c1]
      split at h
      · rename_i c2
        rw [if_pos c2]
        split at h
        · rename_i l3 i3 hext
          split at h
          · rename_i raw i4 hle
            split at h
            · rename_i hbase
              have hinj := h
              injection hinj with e1 e2
              obtain ⟨f1, f2⟩ := read_le16_ok src i3 raw i4 hle
              rw [extend_len_take src (src.length - 1) 2 7 ((inst &&& 0x7) + 2)
                inp l3 i3 hext (by omega) (by omega)]
              simp only []
              rw [read_le16_take_fail src (src.length - 1) i3 (by omega) (by omega)]
            · split at h <;> cases h
          · cases h
          · cases h
        · cases h
        · cases h
      · repeat' split at h
        all_goals cases h

theorem decompress_loop_consumes (src : List Nat) : ∀ (fuel inst inp outp state : Nat)
    (dst : List Nat) (l inpF o : Nat) (d : List Nat),
    decompress_loop src fuel inst inp outp state dst = .ok (l, inpF, o, d) →
    inp + 2 ≤ inpF := by
  intro fuel
  induction fuel with
  | zero =>
    intro inst inp outp state dst l inpF o d h
    cases h
  | succ fuel ih =>
    intro inst inp outp state dst l inpF o d h
    unfold decompress_loop at h
    split at h
    · rename_i inst1 inp1 hread
      have hinp1 : inp ≤ inp1 := by
        revert hread
        split
        · intro hread
          obtain ⟨e1, e2⟩ := input_byte_ok src inp inst1 inp1 hread
          omega
        · rename_i hc
          intro hread
          injection hread with hread
          injection hread with e1 e2
          omega
      split at h
      · rename_i l2 i2 hdec
        obtain ⟨b1, b2⟩ := decode_inst_brk_bound src inst1 inp1 outp state dst l2 i2 hdec
        injection h with h
        injection h with e1 h
        injection h with e2 h
        omega
      · rename_i i2 d2 o2 hdec
        obtain ⟨b1, b2⟩ := decode_inst_lit_bound src inst1 inp1 outp state dst i2 d2 o2 hdec
        have := ih inst1 i2 o2 4 d2 l inpF o d h
        omega
      · rename_i lbcur lblen nstate i2 hdec
        obtain ⟨b1, b2⟩ := decode_inst_cont_bound src inst1 inp1 outp state dst
          lbcur lblen nstate i2 hdec
        split at h
        · rename_i d3 o3 hlb
          split at h
          · rename_i i4 d4 o4 hcs
            obtain ⟨e1, e2⟩ := copy_slice_src_bound src i2 d3 o3 nstate i4 d4 o4 hcs
            have := ih inst1 i4 o4 nstate d4 l inpF o d h
            omega
          · cases h
          · cases h
        · cases h
        · cases h
      · cases h
      · cases h
    · cases h
    · cases h

theorem decompress_loop_take (src : List Nat) : ∀ (fuel fuel' inst inp outp state : Nat)
    (dst : List Nat) (l o : Nat) (d : List Nat),
    decompress_loop src fuel inst inp outp state dst = .ok (l, src.length, o, d) →
    src.length ≤ fuel' + inp →
    decompress_loop (src.take (src.length - 1)) (fuel' + 1) inst inp outp state dst
      = .err .inputOverrun := by
  intro fuel
  induction fuel with
  | zero =>
    intro fuel' inst inp outp state dst l o d h hf
    cases h
  | succ fuel ih =>
    intro fuel' inst inp outp state dst l o d h hf
    have hcons := decompress_loop_consumes src (fuel + 1) inst inp outp state dst
      l src.length o d h
    unfold decompress_loop at h
    unfold decompress_loop
    split at h
    · rename_i inst1 inp1 hread
      have hkey : ((if inp > 1 ∨ state > 0 then
            input_byte (src.take (src.length - 1)) inp
            else (.ok (inst, inp) : DRes (Nat × Nat))) = .ok (inst1, inp1)) ∧
          inp ≤ inp1 ∧ inp1 ≤ inp + 1 := by
        rcases Decidable.em (inp > 1 ∨ state > 0) with hc | hc
        · rw [if_pos hc] at hread ⊢
          obtain ⟨e1, e2⟩ := input_byte_ok src inp inst1 inp1 hread
          exact ⟨input_byte_take src (src.length - 1) inp inst1 inp1 hread (by omega),
            by omega, by omega⟩
        · rw [if_neg hc] at hread ⊢
          injection hread with hread
          injection hread with e1 e2
          exact ⟨by rw [e1, e2], by omega, by omega⟩
      obtain ⟨hkey1, hmono1, hmono2⟩ := hkey
      rw [hkey1]
      simp only []
      split at h
      · rename_i l2 i2 hdec
        injection h with h
        injection h with e1 h
        injection h with e2 h
        obtain ⟨b1, b2⟩ := decode_inst_brk_bound src inst1 inp1 outp state dst l2 i2 hdec
        rw [decode_inst_take_brk src inst1 inp1 outp state dst l2 i2 hdec e2 (by omega)]
      · rename_i i2 d2 o2 hdec
        obtain ⟨b1, b2⟩ := decode_inst_lit_bound src inst1 inp1 outp state dst i2 d2 o2 hdec
        have hcons2 := decompress_loop_consumes src fuel inst1 i2 o2 4 d2
          l src.length o d h
        obtain ⟨f, rfl⟩ : ∃ f, fuel' = f + 1 := ⟨fuel' - 1, by omega⟩
        rw [decode_inst_take_lit src (src.length - 1) inst1 inp1 outp state dst
          i2 d2 o2 hdec (by omega) (by omega)]
        simp only []
        exact ih f inst1 i2 o2 4 d2 l o d h (by omega)
      · rename_i lbcur lblen nstate i2 hdec
        obtain ⟨b1, b2⟩ := decode_inst_cont_bound src inst1 inp1 outp state dst
          lbcur lblen nstate i2 hdec
        split at h
        · rename_i d3 o3 hlb
          split at h
          · rename_i i4 d4 o4 hcs
            obtain ⟨e1, e2⟩ := copy_slice_src_bound src i2 d3 o3 nstate i4 d4 o4 hcs
            have hcons2 := decompress_loop_consumes src fuel inst1 i4 o4 nstate d4
              l src.length o d h
            obtain ⟨f, rfl⟩ : ∃ f, fuel' = f + 1 := ⟨fuel' - 1, by omega⟩
            rw [decode_inst_take_cont src (src.length - 1) inst1 inp1 outp state dst
              lbcur lblen nstate i2 hdec (by omega) (by omega)]
            simp only []
            rw [hlb]
            simp only []
            rw [copy_slice_take src (src.length - 1) i2 d3 o3 nstate i4 d4 o4 hcs
              (by omega) (by omega)]
            simp only []
            exact ih f inst1 i4 o4 nstate d4 l o d h (by omega)
          · cases h
          · cases h
        · cases h
        · cases h
      · cases h
      · cases h
    · cases h
    · cases h

theorem decompress_prime_ge (src dst : List Nat) (inst inp inp2 : Nat)
    (dstP : List Nat) (outp state : Nat)
    (h : decompress_prime src dst inst inp = .ok (inp2, dstP, outp, state)) :
    inp ≤ inp2 := by
  unfold decompress_prime at h
  split at h
  · split at h
    · rename_i i3 d3 o3 hcs
      obtain ⟨e1, e2⟩ := copy_slice_src_bound src inp dst 0 (inst - 17) i3 d3 o3 hcs
      injection h with h
      injection h with e3 h
      omega
    · cases h
    · cases h
  · split at h
    · split at h
      · rename_i i3 d3 o3 hcs
        obtain ⟨e1, e2⟩ := copy_slice_src_bound src inp dst 0 (inst - 17) i3 d3 o3 hcs
        injection h with h
        injection h with e3 h
        omega
      · cases h
      · cases h
    · injection h with h
      injection h with e1 h
      omega

theorem decompress_prime_take (src dst : List Nat) (inst inp k inp2 : Nat)
    (dstP : List Nat) (outp state : Nat)
    (h : decompress_prime src dst inst inp = .ok (inp2, dstP, outp, state))
    (hb : inp2 ≤ k) (hk : k ≤ src.length) :
    decompress_prime (src.take k) dst inst inp = .ok (inp2, dstP, outp, state) := by
  unfold decompress_prime at h ⊢
  split at h
  · rename_i c1
    rw [if_pos c1]
    split at h
    · rename_i i3 d3 o3 hcs
      have hinj := h
      injection hinj with hinj
      injection hinj with e1 hinj
      rw [copy_slice_take src k inp dst 0 (inst - 17) i3 d3 o3 hcs (by omega) hk]
      simp only []
      exact h
    · cases h
    · cases h
  · rename_i c1
    rw [if_neg c1]
    split at h
    · rename_i c2
      rw [if_pos c2]
      split at h
      · rename_i i3 d3 o3 hcs
        have hinj := h
        injection hinj with hinj
        injection hinj with e1 hinj
        rw [copy_slice_take src k inp dst 0 (inst - 17) i3 d3 o3 hcs (by omega) hk]
        simp only []
        exact h
      · cases h
      · cases h
    · rename_i c2
      rw [if_neg c2]
      exact h

/-- C8 (amended).  If compressing `src` succeeds with output `c`, and
decompressing `c` into some destination buffer `dst` succeeds, then
decompressing the truncated buffer `c[..c.len()-1]` into the same
destination returns the error `InputOverrun`.  (The original claim,
quantified over buffers `c` produced by `compress` without requiring
that `c` decompresses successfully, is refuted by
`c8_truncation_counterexample` below: `compress` maps the empty slice
to a buffer that its own decoder rejects with a different error.) -/
theorem c8_truncation (src c dst : List Nat) (n0 : Nat) (d0 : List Nat)
    (hc : compress src = .ok c)
    (hd : decompress c dst = .ok (n0, d0)) :
    decompress (c.take (c.length - 1)) dst = .err .inputOverrun := by
  unfold decompress at hd ⊢
  rw [List.length_take_of_le (show c.length - 1 ≤ c.length by omega)]
  split at hd
  · cases hd
  · rename_i h3
    split at hd
    · rename_i inst i1 hib
      obtain ⟨e1, e2⟩ := input_byte_ok c 0 inst i1 hib
      split at hd
      · rename_i inp dstP outp state hpr
        have hge := decompress_prime_ge c dst inst i1 inp dstP outp state hpr
        split at hd
        · rename_i lblen inpF o2 dF hloop
          have hcons := decompress_loop_consumes c (c.length + 1) inst inp outp state
            dstP lblen inpF o2 dF hloop
          split at hd
          · cases hd
          · rename_i hlb3
            split at hd
            · rename_i hend
              by_cases hsmall : c.length < 4
              · rw [if_pos (show c.length - 1 < 3 by omega)]
              · rw [if_neg (show ¬(c.length - 1 < 3) by omega)]
                rw [input_byte_take c (c.length - 1) 0 inst i1 hib (by omega)]
                simp only []
                rw [decompress_prime_take c dst inst i1 (c.length - 1) inp dstP outp
                  state hpr (by omega) (by omega)]
                simp only []
                rw [hend] at hloop
                rw [decompress_loop_take c (c.length + 1) (c.length - 1) inst inp
                  outp state dstP lblen o2 dF hloop (by omega)]
            · split at hd
              · cases hd
              · cases hd
        · cases hd
        · cases hd
      · cases hd
      · cases hd
    · cases hd
    · cases hd

/-- C8, counterexample to the claim as stated: `compress` on the empty
slice succeeds with `c = [0x11, 0x11, 0x00, 0x00]`, yet decompressing
the truncated buffer `c[..3]` fails with `LookbehindOverrun`, not
`InputOverrun` (the first `0x11` is parsed as an M4 match of distance
16388 into an empty output). -/
theorem c8_truncation_counterexample :
    compress [] = .ok [0x11, 0x11, 0x00, 0x00] ∧
    decompress (([0x11, 0x11, 0x00, 0x00] : List Nat).take 3) [] =
      .err .lookbehindOverrun ∧
    Err.lookbehindOverrun ≠ Err.inputOverrun := by
  refine ⟨rfl, rfl, by decide⟩

theorem c8_truncation_witness :
    decompress (([18, 5, 17, 0, 0] : List Nat).take
      (([18, 5, 17, 0, 0] : List Nat).length - 1)) [0] = .err .inputOverrun :=
  c8_truncation [5] [18, 5, 17, 0, 0] [0] 1 [5] (by rfl) (by rfl)

theorem key2_inj (a b a2 b2 : Nat) (ha : a < 256) (ha2 : a2 < 256)
    (h : a ^^^ (b <<< 8) = a2 ^^^ (b2 <<< 8)) : a = a2 := by
  apply Nat.eq_of_testBit_eq
  intro i
  by_cases hi : i < 8
  · have h2 := congrArg (fun x => Nat.testBit x i) h
    simp only [Nat.testBit_xor, Nat.testBit_shiftLeft,
      decide_eq_false (show ¬(8 ≤ i) by omega), Bool.false_and,
      Bool.bne_false] at h2
    exact h2
  · have e1 : a < 2 ^ i := lt_of_lt_of_le ha
      (le_trans (by omega : (256 : Nat) ≤ 2 ^ 8)
        (Nat.pow_le_pow_right (by omega) (by omega)))
    have e2 : a2 < 2 ^ i := lt_of_lt_of_le ha2
      (le_trans (by omega : (256 : Nat) ≤ 2 ^ 8)
        (Nat.pow_le_pow_right (by omega) (by omega)))
    rw [Nat.testBit_lt_two_pow e1, Nat.testBit_lt_two_pow e2]

theorem c7_tail_go (src : List Nat) (n k bp bs : Nat) (hn : n = src.length)
    (hk : k < n) (hn238 : n ≤ 238)
    (d : Dict) (bo : Nat → Nat) (lo ll : Nat)
    (hbuf : ∀ p, d.buffer p = src.getD p 0)
    (hm2 : ∀ q, d.match2.head q = 0xFFFF ∨
      ∃ j, j < k ∧ q = src.getD j 0 ^^^ (src.getD (j + 1) 0 <<< 8)) :
    ∃ d' st',
      advance_tail src d
        { inp := n, wind_sz := n - k, wind_b := k, wind_e := n + k,
          cycle1_countdown := MAX_DIST - k, bufp := bp, buf_sz := bs }
        false bo lo ll = (d', st', bo, lo, ll) ∧
      (∀ p, d'.buffer p = src.getD p 0) ∧
      (∀ q, d'.match2.head q = 0xFFFF ∨
        ∃ j, j < k + 1 ∧ q = src.getD j 0 ^^^ (src.getD (j + 1) 0 <<< 8)) ∧
      st'.inp = n ∧ st'.wind_sz = n - (k + 1) ∧ st'.wind_b = k + 1 ∧
      st'.wind_e = n + (k + 1) ∧ st'.cycle1_countdown = MAX_DIST - (k + 1) ∧
      st'.buf_sz = n - k ∧ st'.bufp = k := by
  unfold advance_tail Dict.reset_next_input_entry EState.get_byte Match2.add
  rw [if_neg (show ¬(MAX_DIST - k = 0) by simp only [MAX_DIST]; omega)]
  simp only []
  rw [if_pos (show n ≥ src.length by omega)]
  simp only []
  rw [if_pos (show n - k > 0 by omega)]
  rw [if_pos (show n + k < MAX_MATCH_LEN by simp only [MAX_MATCH_LEN, MAX_DIST]; omega)]
  rw [Nat.mod_eq_of_lt (show n + k + 1 < BUF_SIZE by
    simp only [BUF_SIZE, MAX_DIST, MAX_MATCH_LEN]; omega)]
  rw [Nat.mod_eq_of_lt (show k + 1 < BUF_SIZE by
    simp only [BUF_SIZE, MAX_DIST, MAX_MATCH_LEN]; omega)]
  rw [if_neg Bool.false_ne_true]
  simp only []
  refine ⟨_, _, rfl, ?_, ?_, ?_, ?_, ?_, ?_, ?_, ?_, ?_⟩
  · intro p
    simp only [upd]
    split
    · rename_i hp
      rw [List.getD_eq_default]
      omega
    · split
      · rename_i hp
        rw [List.getD_eq_default]
        omega
      · exact hbuf p
  · intro q
    simp only [Match2.make_key, upd, hbuf]
    by_cases hq : q = src.getD k 0 ^^^ (src.getD (k + 1) 0 <<< 8)
    · rw [if_pos hq]
      right
      exact ⟨k, by omega, hq⟩
    · rw [if_neg hq]
      rcases hm2 q with h | ⟨j, hj, he⟩
      · exact .inl h
      · exact .inr ⟨j, by omega, he⟩
  · rfl
  · simp only []
    omega
  · rfl
  · simp only []
    omega
  · simp only []
    omega
  · simp only []
    omega
  · simp only []
    omega

theorem c7_tail_term (src : List Nat) (n bp bs : Nat) (hn : n = src.length)
    (hn238 : n ≤ 238)
    (d : Dict) (bo : Nat → Nat) (lo ll : Nat) :
    ∃ d' st',
      advance_tail src d
        { inp := n, wind_sz := 0, wind_b := n, wind_e := n + n,
          cycle1_countdown := MAX_DIST - n, bufp := bp, buf_sz := bs }
        true bo lo ll = (d', st', bo, lo, 0) ∧
      st'.buf_sz = 0 := by
  unfold advance_tail Dict.reset_next_input_entry EState.get_byte Match2.add
  rw [if_neg (show ¬(MAX_DIST - n = 0) by simp only [MAX_DIST]; omega)]
  simp only []
  rw [if_pos (show n ≥ src.length by omega)]
  simp only []
  rw [if_neg (show ¬((0 : Nat) > 0) by omega)]
  rw [if_pos (show n + n < MAX_MATCH_LEN by simp only [MAX_MATCH_LEN, MAX_DIST]; omega)]
  rw [Nat.mod_eq_of_lt (show n + n + 1 < BUF_SIZE by
    simp only [BUF_SIZE, MAX_DIST, MAX_MATCH_LEN]; omega)]
  rw [Nat.mod_eq_of_lt (show n + 1 < BUF_SIZE by
    simp only [BUF_SIZE, MAX_DIST, MAX_MATCH_LEN]; omega)]
  exact ⟨_, _, rfl, rfl⟩

theorem c7_advance (src : List Nat) (n k : Nat) (hn : n = src.length)
    (hk : k + 1 ≤ n) (hn238 : n ≤ 238)
    (hinc : ∀ i j, i < j → j < n → src.getD i 0 < src.getD j 0)
    (hbyte : ∀ i, i < n → src.getD i 0 < 256)
    (d : Dict) (bp bs : Nat) (bo : Nat → Nat)
    (hbuf : ∀ p, d.buffer p = src.getD p 0)
    (hm2 : ∀ q, d.match2.head q = 0xFFFF ∨
      ∃ j, j < k ∧ q = src.getD j 0 ^^^ (src.getD (j + 1) 0 <<< 8)) :
    ∃ d' st' bo',
      Dict.advance d
        { inp := n, wind_sz := n - k, wind_b := k, wind_e := n + k,
          cycle1_countdown := MAX_DIST - k, bufp := bp, buf_sz := bs }
        src 0 bo false = (d', st', bo', 0, 1) ∧
      (∀ p, d'.buffer p = src.getD p 0) ∧
      (∀ q, d'.match2.head q = 0xFFFF ∨
        ∃ j, j < k + 1 ∧ q = src.getD j 0 ^^^ (src.getD (j + 1) 0 <<< 8)) ∧
      st'.inp = n ∧ st'.wind_sz = n - (k + 1) ∧ st'.wind_b = k + 1 ∧
      st'.wind_e = n + (k + 1) ∧ st'.cycle1_countdown = MAX_DIST - (k + 1) ∧
      st'.buf_sz = n - k ∧ st'.bufp = k := by
  unfold Dict.advance
  rw [if_neg Bool.false_ne_true]
  simp only [Match3.advance, Match3.get_head]
  by_cases hlast : k + 1 = n
  · rw [if_pos (show 1 ≥ n - k by omega)]
    rw [decide_eq_false (show ¬(n - k = 0) by omega)]
    obtain ⟨d2, st2, heq, hb2, hm22, hf⟩ :=
      c7_tail_go src n k bp bs hn (by omega) hn238
        { match3 :=
            { head := upd d.match3.head (Match3.make_key d.buffer k) k,
              chain_sz :=
                upd d.match3.chain_sz (Match3.make_key d.buffer k)
                  ((d.match3.chain_sz (Match3.make_key d.buffer k) + 1) % 2 ^ 16),
              chain :=
                upd d.match3.chain k
                  (if d.match3.chain_sz (Match3.make_key d.buffer k) = 0 then 65535
                  else d.match3.head (Match3.make_key d.buffer k)),
              best_len := upd d.match3.best_len k (MAX_MATCH_LEN + 1) },
          match2 := d.match2, buffer := d.buffer }
        bo 0 1 hbuf hm2
    exact ⟨d2, st2, bo, heq, hb2, hm22, hf⟩
  · rw [if_neg (show ¬(1 ≥ n - k) by omega)]
    have hkey : d.match2.head (src.getD k 0 ^^^ (src.getD (k + 1) 0 <<< 8)) =
        0xFFFF := by
      rcases hm2 (src.getD k 0 ^^^ (src.getD (k + 1) 0 <<< 8)) with h | ⟨j, hj, he⟩
      · exact h
      · exfalso
        have e := key2_inj (src.getD k 0) (src.getD (k + 1) 0)
          (src.getD j 0) (src.getD (j + 1) 0)
          (hbyte k (by omega)) (hbyte j (by omega)) he
        have := hinc j k hj (by omega)
        omega
    simp only [Match2.search, Match2.make_key, hbuf]
    rw [hkey, if_pos rfl]
    simp only []
    rw [if_neg (show ¬((false = true) ∧ 3 ≤ n - k) from fun h =>
      Bool.false_ne_true h.1)]
    simp only []
    rw [if_neg (show ¬((1 : Nat) > 1) by omega)]
    obtain ⟨d2, st2, heq, hb2, hm22, hf⟩ :=
      c7_tail_go src n k bp bs hn (by omega) hn238
        { match3 :=
            { head := upd d.match3.head (Match3.make_key d.buffer k) k,
              chain_sz :=
                upd d.match3.chain_sz (Match3.make_key d.buffer k)
                  ((d.match3.chain_sz (Match3.make_key d.buffer k) + 1) % 2 ^ 16),
              chain :=
                upd d.match3.chain k
                  (if d.match3.chain_sz (Match3.make_key d.buffer k) = 0 then 65535
                  else d.match3.head (Match3.make_key d.buffer k)),
              best_len := upd d.match3.best_len k 1 },
          match2 := d.match2, buffer := d.buffer }
        (fun i =>
          if 2 ≤ i ∧ i < MAX_MATCH_TABLE then
            if 0 ≠ 0 then
              EState.pos2off
                { inp := n, wind_sz := n - k, wind_b := k, wind_e := n + k,
                  cycle1_countdown := MAX_DIST - k, bufp := bp, buf_sz := bs }
                (0 - 1)
            else 0
          else bo i)
        0 1 hbuf hm2
    exact ⟨d2, st2, _, heq, hb2, hm22, hf⟩

theorem c7_advance_term (src : List Nat) (n : Nat) (hn : n = src.length)
    (hn238 : n ≤ 238)
    (d : Dict) (bp bs : Nat) (bo : Nat → Nat) :
    ∃ d' st' bo',
      Dict.advance d
        { inp := n, wind_sz := 0, wind_b := n, wind_e := n + n,
          cycle1_countdown := MAX_DIST - n, bufp := bp, buf_sz := bs }
        src 0 bo false = (d', st', bo', 0, 0) ∧
      st'.buf_sz = 0 := by
  unfold Dict.advance
  rw [if_neg Bool.false_ne_true]
  simp only [Match3.advance, Match3.get_head]
  rw [if_pos (show 1 ≥ 0 by omega)]
  obtain ⟨d2, st2, heq, hbsz⟩ :=
    c7_tail_term src n bp bs hn hn238
      { match3 :=
          { head := upd d.match3.head (Match3.make_key d.buffer n) n,
            chain_sz :=
              upd d.match3.chain_sz (Match3.make_key d.buffer n)
                ((d.match3.chain_sz (Match3.make_key d.buffer n) + 1) % 2 ^ 16),
            chain :=
              upd d.match3.chain n
                (if d.match3.chain_sz (Match3.make_key d.buffer n) = 0 then 65535
                else d.match3.head (Match3.make_key d.buffer n)),
            best_len := upd d.match3.best_len n (MAX_MATCH_LEN + 1) },
        match2 := d.match2, buffer := d.buffer }
      bo 0 1
  exact ⟨d2, st2, bo, heq, hbsz⟩

theorem discard_match_len_one (lo ll op : Nat) : discard_match 1 lo ll op = 0 := by
  unfold discard_match
  rw [if_pos (Or.inl (by omega))]

theorem c7_loop (src : List Nat) (n : Nat) (hn : n = src.length)
    (hn238 : n ≤ 238)
    (hinc : ∀ i j, i < j → j < n → src.getD i 0 < src.getD j 0)
    (hbyte : ∀ i, i < n → src.getD i 0 < 256) :
    ∀ j k, k + j = n → 1 ≤ k →
    ∀ (fuel : Nat) (d : Dict) (st : EState) (dst : List Nat)
      (out_pos lit_ptr0 : Nat) (bo : Nat → Nat) (lo : Nat),
      n + 2 - k ≤ fuel →
      (∀ p, d.buffer p = src.getD p 0) →
      (∀ q, d.match2.head q = 0xFFFF ∨
        ∃ j2, j2 < k ∧ q = src.getD j2 0 ^^^ (src.getD (j2 + 1) 0 <<< 8)) →
      st.inp = n → st.wind_sz = n - k → st.wind_b = k → st.wind_e = n + k →
      st.cycle1_countdown = MAX_DIST - k → st.bufp = k - 1 →
      st.buf_sz = n - k + 1 →
      compress_loop src fuel d st dst out_pos (k - 1) lit_ptr0 bo lo 1 =
        .ok (dst, out_pos, n, if k = 1 then 0 else lit_ptr0) := by
  intro j
  induction j with
  | zero =>
    intro k hkj hk1 fuel d st dst out_pos lit_ptr0 bo lo hfuel hbuf hm2
      h1 h2 h3 h4 h5 h6 h7
    have hke : k = n := by omega
    obtain ⟨si, sw, sb, se, sc, sp, ss⟩ := st
    simp only [] at h1 h2 h3 h4 h5 h6 h7
    subst si sw sb se sc sp ss
    rw [hke, Nat.sub_self]
    obtain ⟨f, rfl⟩ : ∃ f, fuel = f + 1 := ⟨fuel - 1, by omega⟩
    unfold compress_loop
    simp only []
    rw [if_neg (show ¬(0 + 1 = 0) by omega)]
    rw [discard_match_len_one lo (n - 1) out_pos]
    rw [if_pos rfl]
    obtain ⟨d2, st2, bo2, heq, hbsz⟩ :=
      c7_advance_term src n hn hn238 d (n - 1) (0 + 1) bo
    rw [heq]
    simp only []
    obtain ⟨f2, rfl⟩ : ∃ f2, f = f2 + 1 := ⟨f - 1, by omega⟩
    unfold compress_loop
    rw [if_pos hbsz]
    have he1 : n - 1 + 1 = n := by omega
    rw [he1]
    by_cases hk : n = 1
    · rw [hk]
      rfl
    · rw [if_neg (show ¬(n - 1 = 0) by omega), if_neg hk]
  | succ j ih =>
    intro k hkj hk1 fuel d st dst out_pos lit_ptr0 bo lo hfuel hbuf hm2
      h1 h2 h3 h4 h5 h6 h7
    obtain ⟨si, sw, sb, se, sc, sp, ss⟩ := st
    simp only [] at h1 h2 h3 h4 h5 h6 h7
    subst si sw sb se sc sp ss
    obtain ⟨f, rfl⟩ : ∃ f, fuel = f + 1 := ⟨fuel - 1, by omega⟩
    unfold compress_loop
    simp only []
    rw [if_neg (show ¬(n - k + 1 = 0) by omega)]
    rw [discard_match_len_one lo (k - 1) out_pos]
    rw [if_pos rfl]
    obtain ⟨d2, st2, bo2, heq, hb2, hm22, g1, g2, g3, g4, g5, g6, g7⟩ :=
      c7_advance src n k hn (by omega) hn238 hinc hbyte d (k - 1) (n - k + 1) bo
        hbuf hm2
    rw [heq]
    simp only []
    rw [show k - 1 + 1 = k + 1 - 1 by omega]
    rw [ih (k + 1) (by omega) (by omega) f d2 st2 dst out_pos
      (if k - 1 = 0 then k - 1 else lit_ptr0) bo2 0 (by omega) hb2
      (by
        intro q
        rcases hm22 q with h | ⟨j2, hj2, he⟩
        · exact .inl h
        · exact .inr ⟨j2, by omega, he⟩)
      g1 (by omega) g3 (by omega) g5 (by omega) (by omega)]
    rw [if_neg (show ¬(k + 1 = 1) by omega)]
    by_cases hk : k = 1
    · subst hk
      rw [if_pos rfl, if_pos rfl]
    · rw [if_neg (show ¬(k - 1 = 0) by omega), if_neg hk]

theorem setSlice_getElem_lt (dst : List Nat) (pos : Nat) (s : List Nat) (i : Nat)
    (hi : i < pos) (hp : pos ≤ dst.length) :
    (setSlice dst pos s)[i]? = dst[i]? := by
  unfold setSlice
  rw [List.getElem?_append, if_pos (by
    rw [List.length_append, List.length_take]
    omega)]
  rw [List.getElem?_append, if_pos (by rw [List.length_take]; omega)]
  rw [List.getElem?_take, if_pos hi]

theorem setSlice_zero_head (dst : List Nat) (v : Nat) :
    (setSlice dst 0 [v])[0]? = some v := by
  unfold setSlice
  rw [List.take_zero, List.nil_append]
  rw [List.getElem?_append, if_pos (by simp)]
  rfl

-- DEVSKIP BEGIN
/-- Constant-propagating overlapping copy at distance 1: when the byte
just before `outp` is `v`, `copyOverlap` fills `[outp, outp+len)` with
`v` and leaves everything below `outp` unchanged. -/
theorem copyOverlap_run (v : Nat) : ∀ (len : Nat) (dst : List Nat) (outp : Nat),
    outp + len ≤ dst.length → 1 ≤ outp → dst[outp - 1]? = some v →
    ∃ dst2, copyOverlap len dst outp (outp - 1) = .ok dst2 ∧
      dst2.length = dst.length ∧
      (∀ i, i < outp → dst2[i]? = dst[i]?) ∧
      (∀ i, outp ≤ i → i < outp + len → dst2[i]? = some v) := by
  intro len
  induction len with
  | zero =>
    intro dst outp h1 h2 h3
    exact ⟨dst, rfl, rfl, fun i _ => rfl, fun i hi hi2 => by omega⟩
  | succ n ih =>
    intro dst outp h1 h2 h3
    obtain ⟨dst2, heq, hl, hf, hv⟩ := ih (dst.set outp v) (outp + 1)
      (by rw [List.length_set]; omega) (by omega)
      (by
        rw [show outp + 1 - 1 = outp by omega]
        rw [List.getElem?_set_self (by omega)])
    rw [show outp + 1 - 1 = outp by omega] at heq
    refine ⟨dst2, ?_, ?_, ?_, ?_⟩
    · unfold copyOverlap
      rw [List.get?_eq_getElem?, h3]
      simp only []
      rw [if_pos (show outp < dst.length by omega)]
      rw [show outp - 1 + 1 = outp by omega]
      exact heq
    · rw [hl, List.length_set]
    · intro i hi
      rw [hf i (by omega)]
      rw [List.getElem?_set_ne (by omega)]
    · intro i hi hi2
      by_cases h0 : i = outp
      · subst h0
        rw [hf i (by omega)]
        rw [List.getElem?_set_self (by omega)]
      · exact hv i (by omega) (by omega)

/-- Shared evaluation of the overlap-run test vector against any
541-byte destination: the zero-run extension contributes
`1*255 + 31 + 0xFC`, so the M3 run has length 540, not 34, and the
decoder writes 541 bytes. -/
theorem overlap_run_eval (D : List Nat) (hD : D.length = 541) :
    decompress [0x12, 0x61, 0x20, 0x00, 0xFC, 0x00, 0x00, 0x11, 0x00, 0x00] D =
      .ok (541, List.replicate 541 0x61) := by
  unfold decompress
  rw [if_neg (by decide :
    ¬(([0x12, 0x61, 0x20, 0x00, 0xFC, 0x00, 0x00, 0x11, 0x00, 0x00] : List Nat).length < 3))]
  rw [show input_byte [0x12, 0x61, 0x20, 0x00, 0xFC, 0x00, 0x00, 0x11, 0x00, 0x00] 0 =
    .ok (0x12, 1) from rfl]
  simp only []
  have hprime : decompress_prime
      [0x12, 0x61, 0x20, 0x00, 0xFC, 0x00, 0x00, 0x11, 0x00, 0x00] D 0x12 1 =
      .ok (2, setSlice D 0 [0x61], 1, 1) := by
    unfold decompress_prime copy_slice
    rw [if_pos (show 0 + (0x12 - 17) ≤ D.length by omega)]
    rfl
  rw [hprime]
  simp only []
  unfold decompress_loop
  rw [if_pos (Or.inl (by decide : (2:Nat) > 1))]
  rw [show input_byte [0x12, 0x61, 0x20, 0x00, 0xFC, 0x00, 0x00, 0x11, 0x00, 0x00] 2 =
    .ok (0x20, 3) from rfl]
  simp only []
  rw [show decode_inst [0x12, 0x61, 0x20, 0x00, 0xFC, 0x00, 0x00, 0x11, 0x00, 0x00]
    0x20 3 1 1 (setSlice D 0 [0x61]) = .cont 0 540 0 7 from rfl]
  simp only []
  obtain ⟨D2, hco, hl2, hf2, hv2⟩ := copyOverlap_run 0x61 540 (setSlice D 0 [0x61]) 1
    (by
      rw [setSlice_length D 0 [0x61]
        (by simp only [List.length_cons, List.length_nil]; omega)]
      omega)
    (by omega)
    (by
      rw [show (1:Nat) - 1 = 0 from rfl]
      exact setSlice_zero_head D 0x61)
  rw [show (1:Nat) - 1 = 0 from rfl] at hco
  have hD1len : (setSlice D 0 [0x61]).length = 541 := by
    rw [setSlice_length D 0 [0x61]
      (by simp only [List.length_cons, List.length_nil]; omega)]
    omega
  have hlb : lookback_copy (setSlice D 0 [0x61]) 1 0 540 = .ok (D2, 541) := by
    unfold lookback_copy
    rw [if_pos (by decide : (540:Nat) > 0)]
    rw [if_neg (show ¬(1 + 540 > (setSlice D 0 [0x61]).length ∨
        0 + 540 > (setSlice D 0 [0x61]).length) by
      rw [hD1len]
      omega)]
    rw [hco]
  rw [hlb]
  simp only []
  rw [show copy_slice [0x12, 0x61, 0x20, 0x00, 0xFC, 0x00, 0x00, 0x11, 0x00, 0x00]
    7 D2 541 0 = .ok (7, D2, 541) from rfl]
  simp only []
  rw [show (∀ E : List Nat, decompress_loop
      [0x12, 0x61, 0x20, 0x00, 0xFC, 0x00, 0x00, 0x11, 0x00, 0x00]
      ([0x12, 0x61, 0x20, 0x00, 0xFC, 0x00, 0x00, 0x11, 0x00, 0x00] : List Nat).length
      0x20 7 541 0 E = .ok (3, 10, 541, E)) from fun E => rfl]
  simp only []
  have hD2 : D2 = List.replicate 541 0x61 := by
    apply List.ext_getElem?
    intro i
    rw [List.getElem?_replicate]
    by_cases hi : i < 541
    · rw [if_pos hi]
      by_cases hi0 : i = 0
      · subst hi0
        rw [hf2 0 (by omega)]
        exact setSlice_zero_head D 0x61
      · exact hv2 i (by omega) (by omega)
    · rw [if_neg hi]
      rw [List.getElem?_eq_none (by omega)]
  rw [hD2]
  rw [if_neg (by decide : ¬((3:Nat) ≠ 3))]
  rw [if_pos (by decide :
    (10:Nat) = ([0x12, 0x61, 0x20, 0x00, 0xFC, 0x00, 0x00, 0x11, 0x00, 0x00] : List Nat).length)]

/-- Claim C3 counterexample: decoding the ten-byte overlap-run input
does not return `Ok(35)` — with a large (541-byte) destination the
result is `Ok(541)`, and with a 35-byte destination the decoder fails
with `OutputOverrun`. -/
theorem c3_overlap_run_not_35 :
    decompress [0x12, 0x61, 0x20, 0x00, 0xFC, 0x00, 0x00, 0x11, 0x00, 0x00]
      (List.replicate 541 0) ≠
      .ok (35, List.replicate 35 0x61 ++ List.replicate 506 0) ∧
    decompress [0x12, 0x61, 0x20, 0x00, 0xFC, 0x00, 0x00, 0x11, 0x00, 0x00]
      (List.replicate 35 0) = .err .outputOverrun := by
  constructor
  · intro h
    rw [overlap_run_eval (List.replicate 541 0) (by decide)] at h
    simp at h
  · decide

/-- Claim C3 as amended: decoding the ten-byte input with a sufficiently
large (541-byte) destination buffer returns `Ok(541)` and the output is
541 copies of `0x61` — one literal byte plus an M3 run of length 540 at
distance 1. -/
theorem c3_overlap_run_541 :
    decompress [0x12, 0x61, 0x20, 0x00, 0xFC, 0x00, 0x00, 0x11, 0x00, 0x00]
      (List.replicate 541 0) = .ok (541, List.replicate 541 0x61) :=
  overlap_run_eval (List.replicate 541 0) (by decide)
-- DEVSKIP END

/-- C7: for a nonempty source of at most 238 strictly increasing bytes
(hence without internal matches), the first byte of the compressed
output is the literal priming byte `17 + src.len()`. -/
theorem c7_priming (src : List Nat) (h1 : 0 < src.length) (h2 : src.length ≤ 238)
    (h3 : List.Chain' (fun a b => a < b) src) (h4 : ∀ b ∈ src, b < 256) :
    ∃ c, compress src = .ok c ∧ c.getD 0 0 = 17 + src.length := by
  have hinc : ∀ i j, i < j → j < src.length → src.getD i 0 < src.getD j 0 := by
    intro i j hij hj
    have hp := List.chain'_iff_pairwise.mp h3
    rw [List.pairwise_iff_getElem] at hp
    rw [List.getD_eq_getElem src 0 (by omega), List.getD_eq_getElem src 0 (by omega)]
    exact hp i j (by omega) (by omega) hij
  have hbyte : ∀ i, i < src.length → src.getD i 0 < 256 := by
    intro i hi
    rw [List.getD_eq_getElem src 0 (by omega)]
    exact h4 _ (List.getElem_mem (by omega))
  unfold compress compress_with_dict compress_impl
  rcases hini : Dict.init zeroDict src EState.start with ⟨D0, ST0⟩
  simp only []
  unfold Dict.init at hini
  simp only [EState.start] at hini
  rw [Nat.min_eq_left (show src.length ≤ MAX_MATCH_LEN by
    simp only [MAX_MATCH_LEN, MAX_DIST]; omega)] at hini
  rw [Nat.zero_add] at hini
  injection hini with hD hST
  have hbuf0 : ∀ p, D0.buffer p = src.getD p 0 := by
    intro p
    rw [← hD]
    simp only [zeroDict]
    by_cases hsml : src.length < 3
    · rw [if_pos hsml]
      split
      · rename_i hz
        rw [List.getD_eq_default src 0 (by omega)]
      · split
        · rfl
        · rename_i hz2 hz3
          rw [List.getD_eq_default src 0 (by omega)]
    · rw [if_neg hsml]
      split
      · rfl
      · rename_i hz
        rw [List.getD_eq_default src 0 (by omega)]
  have hm20 : ∀ q, D0.match2.head q = 0xFFFF := by
    intro q
    rw [← hD]
  obtain ⟨d2, st2, bo2, heq, hb2, hm22, g1, g2, g3, g4, g5, g6, g7⟩ :=
    c7_advance src src.length 0 rfl (by omega) (by omega) hinc hbyte D0 0 0
      (fun _ => 0) hbuf0 (fun q => .inl (hm20 q))
  simp only [Nat.sub_zero, Nat.add_zero] at heq
  rw [← hST]
  rw [heq]
  simp only []
  have hloop := c7_loop src src.length rfl h2 hinc hbyte (src.length - 1) 1
    (by omega) (by omega) (src.length + 8) d2 st2
    (List.replicate (compress_worst_size src.length) 0) 0 src.length bo2 0
    (by omega) hb2
    (by
      intro q
      rcases hm22 q with h | ⟨j2, hj2, he⟩
      · exact .inl h
      · exact .inr ⟨j2, by omega, he⟩)
    g1 (by omega) (by omega) (by omega) (by omega) (by omega) (by omega)
  rw [show (1 : Nat) - 1 = 0 from rfl] at hloop
  rw [if_pos rfl] at hloop
  rw [hloop]
  simp only []
  have e1 : (17 + src.length) % 256 = 17 + src.length := Nat.mod_eq_of_lt (by omega)
  have hw1 : encode_literal_run (List.replicate (compress_worst_size src.length) 0)
      0 src 0 src.length =
      .ok (setSlice (setSlice (List.replicate (compress_worst_size src.length) 0)
        0 [17 + src.length]) (0 + 1) src, 0 + 1 + src.length) := by
    unfold encode_literal_run encode_literal_pre write_dst
    rw [if_pos (show (0 = 0 ∧ src.length ≤ 238) from ⟨rfl, h2⟩)]
    rw [e1]
    rw [if_pos (show 0 + [17 + src.length].length ≤
        (List.replicate (compress_worst_size src.length) 0).length by
      rw [List.length_replicate]
      simp only [List.length_cons, List.length_nil, compress_worst_size]
      omega)]
    simp only []
    rw [if_pos (show 0 + src.length ≤ src.length by omega)]
    rw [List.drop_zero]
    rw [List.take_length]
    rw [if_pos (show 0 + [17 + src.length].length + src.length ≤
        (setSlice (List.replicate (compress_worst_size src.length) 0)
          0 [17 + src.length]).length by
      rw [setSlice_length]
      · rw [List.length_replicate]
        simp only [List.length_cons, List.length_nil, compress_worst_size]
        omega
      · rw [List.length_replicate]
        simp only [List.length_cons, List.length_nil, compress_worst_size]
        omega)]
    simp only [List.length_cons, List.length_nil]
  rw [hw1]
  simp only []
  have hlen1 : (setSlice (setSlice (List.replicate (compress_worst_size src.length) 0)
      0 [17 + src.length]) (0 + 1) src).length =
      compress_worst_size src.length := by
    rw [setSlice_length, setSlice_length]
    · exact List.length_replicate _ _
    · rw [List.length_replicate]
      simp only [List.length_cons, List.length_nil, compress_worst_size]
      omega
    · rw [setSlice_length]
      · rw [List.length_replicate]
        simp only [compress_worst_size]
        omega
      · rw [List.length_replicate]
        simp only [List.length_cons, List.length_nil, compress_worst_size]
        omega
  unfold write_dst
  rw [if_pos (show 0 + 1 + src.length + [M4_MARKER ||| 1, 0, 0].length ≤
      (setSlice (setSlice (List.replicate (compress_worst_size src.length) 0)
        0 [17 + src.length]) (0 + 1) src).length by
    rw [hlen1]
    simp only [List.length_cons, List.length_nil, compress_worst_size]
    omega)]
  simp only []
  refine ⟨_, rfl, ?_⟩
  rw [List.getD_eq_getElem?_getD]
  rw [List.getElem?_take, if_pos (by omega)]
  rw [setSlice_getElem_lt _ _ _ _ (by omega) (by
    rw [hlen1]
    simp only [compress_worst_size]
    omega)]
  rw [setSlice_getElem_lt _ _ _ _ (by omega) (by
    rw [setSlice_length] <;> rw [List.length_replicate] <;>
      simp only [List.length_cons, List.length_nil, compress_worst_size] <;> omega)]
  rw [setSlice_zero_head]
  rfl

theorem c7_priming_witness :
    ∃ c, compress [1, 2, 3] = .ok c ∧
      c.getD 0 0 = 17 + ([1, 2, 3] : List Nat).length :=
  c7_priming [1, 2, 3] (by decide) (by decide)
    (by simp [List.chain'_cons, List.chain'_singleton]) (by decide)

end Lzokay
